import Mathlib

/-!
Verification development for the yaml-cli-ui pipeline engine.

The definitions below are a shallow embedding of the engine sources:
  - src/yaml_cli_ui/engine.py   (PipelineEngine, SafeEvaluator, DotDict,
    render_template, serialize_argv, _run_steps, _run_command, run_action)
  - src/src/yaml_cli_ui/engine.py (WorkflowEngine variant: ExpressionEvaluator,
    _serialize_extended)
  - src/yaml_cli_ui/expression.py (standalone render_template)

Python-runtime facilities that the engine merely calls (the ast parser,
str.format, the filesystem, subprocess spawning, os.environ) are modelled as
explicit parameters or oracles; everything the engine itself computes is
translated directly.
-/

/-- The dynamically-typed value universe of the engine: YAML/JSON-style data
as produced by the config loader and the expression evaluator.  Python ints
are modelled by Int (floats are not exercised by the engine's own logic). -/
inductive Value where
  | null
  | bool (b : Bool)
  | int (n : Int)
  | str (s : String)
  | list (xs : List Value)
  | map (kvs : List (String × Value))

/-- Decidable equality for Value (nested inductive, so written by hand). -/
def Value.decEq : (a b : Value) → Decidable (a = b)
  | .null, .null => isTrue rfl
  | .bool a, .bool b =>
    if h : a = b then isTrue (by rw [h])
    else isFalse (by intro hh; cases hh; exact h rfl)
  | .int a, .int b =>
    if h : a = b then isTrue (by rw [h])
    else isFalse (by intro hh; cases hh; exact h rfl)
  | .str a, .str b =>
    if h : a = b then isTrue (by rw [h])
    else isFalse (by intro hh; cases hh; exact h rfl)
  | .list [], .list [] => isTrue rfl
  | .list (x :: xs), .list (y :: ys) =>
    match Value.decEq x y, Value.decEq (.list xs) (.list ys) with
    | isTrue h1, isTrue h2 => isTrue (by injection h2 with h2; rw [h1, h2])
    | isFalse h1, _ => isFalse (by intro hh; injection hh with hh; injection hh; simp_all)
    | _, isFalse h2 => isFalse (by
        intro hh; injection hh with hh; injection hh with _ ht; exact h2 (by rw [ht]))
  | .map [], .map [] => isTrue rfl
  | .map ((k, x) :: xs), .map ((l, y) :: ys) =>
    if hk : k = l then
      match Value.decEq x y, Value.decEq (.map xs) (.map ys) with
      | isTrue h1, isTrue h2 => isTrue (by injection h2 with h2; rw [hk, h1, h2])
      | isFalse h1, _ => isFalse (by intro hh; injection hh with hh; simp_all)
      | _, isFalse h2 => isFalse (by
          intro hh; injection hh with hh; injection hh with _ ht; exact h2 (by rw [ht]))
    else isFalse (by intro hh; injection hh with hh; simp_all)
  | .null, .bool _ => isFalse (by intro h; cases h)
  | .null, .int _ => isFalse (by intro h; cases h)
  | .null, .str _ => isFalse (by intro h; cases h)
  | .null, .list _ => isFalse (by intro h; cases h)
  | .null, .map _ => isFalse (by intro h; cases h)
  | .bool _, .null => isFalse (by intro h; cases h)
  | .bool _, .int _ => isFalse (by intro h; cases h)
  | .bool _, .str _ => isFalse (by intro h; cases h)
  | .bool _, .list _ => isFalse (by intro h; cases h)
  | .bool _, .map _ => isFalse (by intro h; cases h)
  | .int _, .null => isFalse (by intro h; cases h)
  | .int _, .bool _ => isFalse (by intro h; cases h)
  | .int _, .str _ => isFalse (by intro h; cases h)
  | .int _, .list _ => isFalse (by intro h; cases h)
  | .int _, .map _ => isFalse (by intro h; cases h)
  | .str _, .null => isFalse (by intro h; cases h)
  | .str _, .bool _ => isFalse (by intro h; cases h)
  | .str _, .int _ => isFalse (by intro h; cases h)
  | .str _, .list _ => isFalse (by intro h; cases h)
  | .str _, .map _ => isFalse (by intro h; cases h)
  | .list _, .null => isFalse (by intro h; cases h)
  | .list _, .bool _ => isFalse (by intro h; cases h)
  | .list _, .int _ => isFalse (by intro h; cases h)
  | .list _, .str _ => isFalse (by intro h; cases h)
  | .list _, .map _ => isFalse (by intro h; cases h)
  | .list [], .list (_ :: _) => isFalse (by intro h; injection h with h; cases h)
  | .list (_ :: _), .list [] => isFalse (by intro h; injection h with h; cases h)
  | .map _, .null => isFalse (by intro h; cases h)
  | .map _, .bool _ => isFalse (by intro h; cases h)
  | .map _, .int _ => isFalse (by intro h; cases h)
  | .map _, .str _ => isFalse (by intro h; cases h)
  | .map _, .list _ => isFalse (by intro h; cases h)
  | .map [], .map (_ :: _) => isFalse (by intro h; injection h with h; cases h)
  | .map (_ :: _), .map [] => isFalse (by intro h; injection h with h; cases h)

instance : DecidableEq Value := Value.decEq

instance {ε α : Type} [DecidableEq ε] [DecidableEq α] : DecidableEq (Except ε α)
  | .ok a, .ok b =>
    if h : a = b then isTrue (by rw [h])
    else isFalse (by intro hh; cases hh; exact h rfl)
  | .error a, .error b =>
    if h : a = b then isTrue (by rw [h])
    else isFalse (by intro hh; cases hh; exact h rfl)
  | .ok _, .error _ => isFalse (by intro h; cases h)
  | .error _, .ok _ => isFalse (by intro h; cases h)

/-- Association-list lookup, mirroring Python dict access (dicts preserve
insertion order and keys are unique, so first match is the entry). -/
def alGet {α : Type} (d : List (String × α)) (k : String) : Option α :=
  match d with
  | [] => none
  | (k1, v) :: rest => if k1 = k then some v else alGet rest k

/-- Association-list write, mirroring Python `d[k] = v`: replaces the value
in place when the key exists, otherwise appends the new entry. -/
def alSet {α : Type} (d : List (String × α)) (k : String) (v : α) : List (String × α) :=
  match d with
  | [] => [(k, v)]
  | (k1, w) :: rest => if k1 = k then (k1, v) :: rest else (k1, w) :: alSet rest k v

/-- The keys of an association list are pairwise distinct (always true for a
list built from the empty dict by alSet). -/
def keysNodup {α : Type} (d : List (String × α)) : Prop :=
  (d.map Prod.fst).Nodup

instance {α : Type} (d : List (String × α)) : Decidable (keysNodup d) :=
  inferInstanceAs (Decidable (d.map Prod.fst).Nodup)

/-- ASCII whitespace, as stripped by Python str.strip (whose full unicode
whitespace set is irrelevant to the engine's configs). -/
def pyWs (c : Char) : Bool :=
  c = ' ' || c = '\t' || c = '\n' || c = '\r' || c = '\x0b' || c = '\x0c'

/-- Python str.strip over a character list. -/
def trimCh (l : List Char) : List Char :=
  ((l.dropWhile pyWs).reverse.dropWhile pyWs).reverse

/-- The brace characters, kept out of character literals. -/
def lbrace : Char := Char.ofNat 123

def rbrace : Char := Char.ofNat 125

mutual

/-- Python repr() for elements inside stringified containers.  (repr of
strings is approximated without escape handling; the engine never feeds
strings needing escapes through container stringification.) -/
def pyRepr : Value → String
  | .null => "None"
  | .bool true => "True"
  | .bool false => "False"
  | .int n => toString n
  | .str s => "'" ++ s ++ "'"
  | .list xs => "[" ++ String.intercalate ", " (pyReprList xs) ++ "]"
  | .map kvs =>
    String.mk [lbrace] ++ String.intercalate ", " (pyReprPairs kvs) ++ String.mk [rbrace]

def pyReprList : List Value → List String
  | [] => []
  | x :: xs => pyRepr x :: pyReprList xs

def pyReprPairs : List (String × Value) → List String
  | [] => []
  | (k, v) :: rest => ("'" ++ k ++ "': " ++ pyRepr v) :: pyReprPairs rest

end

/-- Python str() on engine values: str passes through, None prints as None,
booleans capitalised, containers via repr of their elements. -/
def pyStr : Value → String
  | .str s => s
  | v => pyRepr v

/-- Python truthiness as seen by the engine.  Scope maps are DotDict
instances, which define no __bool__/__len__ and are therefore always truthy;
the map case follows that behaviour. -/
def pyTruthy : Value → Bool
  | .null => false
  | .bool b => b
  | .int n => n ≠ 0
  | .str s => s ≠ ""
  | .list xs => !xs.isEmpty
  | .map _ => true

/-- The engine's `empty` helper (engine.py line 53): None, the empty string,
or an empty list. -/
def isEmptyVal : Value → Bool
  | .null => true
  | .str s => s = ""
  | .list xs => xs.isEmpty
  | _ => false

/-- Numeric view used by Python ==/< across int and bool (bool is an int
subtype: True == 1, False == 0). -/
def numVal : Value → Option Int
  | .int n => some n
  | .bool true => some 1
  | .bool false => some 0
  | _ => none

mutual

/-- Python == on engine values.  Numbers (incl. bools) compare numerically;
strings structurally; lists pointwise; None only to None.  Scope maps are
DotDict instances without __eq__, so map comparison falls back to object
identity and is modelled as false. -/
def pyEq : Value → Value → Bool
  | a, b =>
    match numVal a, numVal b with
    | some x, some y => x = y
    | _, _ =>
      match a, b with
      | .null, .null => true
      | .str s, .str t => s = t
      | .list xs, .list ys => pyEqList xs ys
      | _, _ => false

def pyEqList : List Value → List Value → Bool
  | [], [] => true
  | x :: xs, y :: ys => pyEq x y && pyEqList xs ys
  | _, _ => false

end

/-- Python < for the value kinds the engine can compare: numbers (incl.
bools) and strings.  Other comparisons raise TypeError in Python; they are
modelled as an error (list-list ordering exists in Python but is unused by
the engine's configs and untouched by the claims). -/
def pyLt : Value → Value → Except String Bool
  | a, b =>
    match numVal a, numVal b with
    | some x, some y => .ok (x < y)
    | _, _ =>
      match a, b with
      | .str s, .str t => .ok (decide (s < t))
      | _, _ => .error "TypeError: unorderable types"

/-- Ambient system facilities the engine calls into: the process environment
and path metadata placed into every scope by _base_context, the filesystem
probe behind the `exists` helper, and Python str.format (used by argv
templates), all treated as opaque parameters.  pyFormatMap models
template.format(**entry), pyFormatPos models template.format(entry), and
pyFormatVal models template.format(value=entry) from the WorkflowEngine
variant. -/
structure Sys where
  env : List (String × String) := []
  cwd : String := ""
  home : String := ""
  temp : String := ""
  osName : String := "posix"
  fsExists : String → Bool := fun _ => false
  pyFormatMap : String → List (String × Value) → String := fun t _ => t
  pyFormatPos : String → Value → String := fun t _ => t
  pyFormatVal : String → Value → String := fun t _ => t

/-- Comparison operators whitelisted by SafeEvaluator (engine.py lines 69-75)
and implemented by the WorkflowEngine _compare (src engine lines 130-143). -/
inductive CmpOp where
  | eq | ne | lt | le | gt | ge
  deriving DecidableEq

/-- The expression AST after parsing and whitelist validation: exactly the
node shapes admitted by SafeEvaluator.ALLOWED (engine.py lines 58-82) with
calls restricted to len/empty/exists (lines 95-97).  Python's ast parser is
standard-library code and is modelled separately (parseExprStr) for the
fragment the claims exercise. -/
inductive Expr where
  | const (v : Value)
  | name (id : String)
  | attr (e : Expr) (field : String)
  | subscript (e : Expr) (idx : Expr)
  | boolAnd (es : List Expr)
  | boolOr (es : List Expr)
  | notE (e : Expr)
  | cmp (lhs : Expr) (rest : List (CmpOp × Expr))
  | callLen (e : Expr)
  | callEmpty (e : Expr)
  | callExists (e : Expr)
  | listLit (es : List Expr)
  | dictLit (kvs : List (Expr × Expr))

/-- One Python comparison step, as run by the compiled Compare node (engine)
and by _compare (WorkflowEngine). -/
def pyCmpOp (op : CmpOp) (a b : Value) : Except String Bool :=
  match op with
  | .eq => .ok (pyEq a b)
  | .ne => .ok (!pyEq a b)
  | .lt => pyLt a b
  | .le => do pure ((← pyLt a b) || pyEq a b)
  | .gt => pyLt b a
  | .ge => do pure ((← pyLt b a) || pyEq a b)

/-- Python list indexing with negative-index handling. -/
def pyIndex (xs : List Value) (n : Int) : Except String Value :=
  let i := if n < 0 then n + xs.length else n
  if h : 0 ≤ i ∧ i.toNat < xs.length then .ok (xs.get ⟨i.toNat, h.2⟩)
  else .error "IndexError: list index out of range"

mutual

/-- Evaluation of a validated expression by the PipelineEngine's
SafeEvaluator (engine.py lines 98-102): Python eval over the prepared
context, with every raised NameError/AttributeError/KeyError/IndexError/
TypeError surfacing as an EngineError.  Scope maps are DotDict values:
attribute access on a missing key raises (DotDict.__getattr__, lines 33-36),
as does subscript access (__getitem__, lines 38-39).  Attribute access on a
non-map value is modelled as an AttributeError (genuine Python object
attributes such as str.upper are not data the engine's configs touch). -/
def evalE (sys : Sys) (ctx : List (String × Value)) : Expr → Except String Value
  | .const v => .ok v
  | .name id =>
    match alGet ctx id with
    | some v => .ok v
    | none => .error ("NameError: " ++ id)
  | .attr e f => do
    match ← evalE sys ctx e with
    | .map kvs =>
      match alGet kvs f with
      | some w => .ok w
      | none => .error ("AttributeError: " ++ f)
    | _ => .error ("AttributeError: " ++ f)
  | .subscript e i => do
    let v ← evalE sys ctx e
    let idx ← evalE sys ctx i
    match v, idx with
    | .map kvs, .str k =>
      match alGet kvs k with
      | some w => .ok w
      | none => .error ("KeyError: " ++ k)
    | .list xs, .int n => pyIndex xs n
    | .str s, .int n => do
      let c ← pyIndex (s.data.map (fun ch => Value.str (String.mk [ch]))) n
      pure c
    | _, _ => .error "TypeError: unsupported subscript"
  | .boolAnd es => evalAndChain sys ctx (.bool true) es
  | .boolOr es => evalOrChain sys ctx (.bool false) es
  | .notE e => do pure (.bool (!pyTruthy (← evalE sys ctx e)))
  | .cmp lhs rest => do evalCmpChain sys ctx (← evalE sys ctx lhs) rest
  | .callLen e => do
    match ← evalE sys ctx e with
    | .str s => pure (.int s.length)
    | .list xs => pure (.int xs.length)
    | _ => .error "TypeError: object has no len"
  | .callEmpty e => do pure (.bool (isEmptyVal (← evalE sys ctx e)))
  | .callExists e => do pure (.bool (sys.fsExists (pyStr (← evalE sys ctx e))))
  | .listLit es => do pure (.list (← evalEList sys ctx es))
  | .dictLit kvs => do pure (.map (← evalEPairs sys ctx kvs))

/-- Python `and`: return the first falsy operand, else the last operand. -/
def evalAndChain (sys : Sys) (ctx : List (String × Value)) (last : Value) :
    List Expr → Except String Value
  | [] => .ok last
  | e :: es => do
    let v ← evalE sys ctx e
    if pyTruthy v then evalAndChain sys ctx v es else .ok v

/-- Python `or`: return the first truthy operand, else the last operand. -/
def evalOrChain (sys : Sys) (ctx : List (String × Value)) (last : Value) :
    List Expr → Except String Value
  | [] => .ok last
  | e :: es => do
    let v ← evalE sys ctx e
    if pyTruthy v then .ok v else evalOrChain sys ctx v es

/-- Python chained comparison: left-to-right, stops at the first false. -/
def evalCmpChain (sys : Sys) (ctx : List (String × Value)) (left : Value) :
    List (CmpOp × Expr) → Except String Value
  | [] => .ok (.bool true)
  | (op, e) :: rest => do
    let right ← evalE sys ctx e
    if ← pyCmpOp op left right then evalCmpChain sys ctx right rest
    else .ok (.bool false)

def evalEList (sys : Sys) (ctx : List (String × Value)) :
    List Expr → Except String (List Value)
  | [] => .ok []
  | e :: es => do pure ((← evalE sys ctx e) :: (← evalEList sys ctx es))

/-- Dict literals: keys must evaluate to strings in the engine's configs
(Python allows any hashable key; none occur in this code base). -/
def evalEPairs (sys : Sys) (ctx : List (String × Value)) :
    List (Expr × Expr) → Except String (List (String × Value))
  | [] => .ok []
  | (ke, ve) :: rest => do
    match ← evalE sys ctx ke with
    | .str k => pure ((k, ← evalE sys ctx ve) :: (← evalEPairs sys ctx rest))
    | _ => .error "TypeError: unhashable or non-string dict key"

end

mutual

/-- Evaluation by the WorkflowEngine's ExpressionEvaluator._eval_node
(src/src engine.py lines 71-127).  Key differences from evalE: attribute
access on a map returns None for a missing key (dict.get, line 84) and
raises on non-dict targets (line 85); and/or return plain booleans; there is
no Subscript case, so subscripts fail as an unsupported node (line 127). -/
def wfEval (sys : Sys) (ctx : List (String × Value)) : Expr → Except String Value
  | .const v => .ok v
  | .name id =>
    match alGet ctx id with
    | some v => .ok v
    | none => .error ("Unknown name in expression: " ++ id)
  | .attr e f => do
    match ← wfEval sys ctx e with
    | .map kvs =>
      match alGet kvs f with
      | some w => .ok w
      | none => .ok .null
    | _ => .error "Attribute access only allowed on objects/maps"
  | .subscript _ _ => .error "Unsupported expression node: Subscript"
  | .boolAnd es => wfEvalAnd sys ctx true es
  | .boolOr es => wfEvalOr sys ctx es
  | .notE e => do pure (.bool (!pyTruthy (← wfEval sys ctx e)))
  | .cmp lhs rest => do wfEvalCmp sys ctx (← wfEval sys ctx lhs) rest
  | .callLen e => do
    match ← wfEval sys ctx e with
    | .str s => pure (.int s.length)
    | .list xs => pure (.int xs.length)
    | .map kvs => pure (.int kvs.length)
    | _ => .error "TypeError: object has no len"
  | .callEmpty e => do pure (.bool (isEmptyVal (← wfEval sys ctx e)))
  | .callExists e => do pure (.bool (sys.fsExists (pyStr (← wfEval sys ctx e))))
  | .listLit es => do pure (.list (← wfEvalList sys ctx es))
  | .dictLit kvs => do pure (.map (← wfEvalPairs sys ctx kvs))

/-- WorkflowEngine `and` (lines 87-93): every operand is coerced to bool,
False is returned at the first falsy operand, else the last coercion. -/
def wfEvalAnd (sys : Sys) (ctx : List (String × Value)) (last : Bool) :
    List Expr → Except String Value
  | [] => .ok (.bool last)
  | e :: es => do
    let b := pyTruthy (← wfEval sys ctx e)
    if b then wfEvalAnd sys ctx b es else .ok (.bool false)

/-- WorkflowEngine `or` (lines 94-99): True at the first truthy operand,
else False. -/
def wfEvalOr (sys : Sys) (ctx : List (String × Value)) :
    List Expr → Except String Value
  | [] => .ok (.bool false)
  | e :: es => do
    let v ← wfEval sys ctx e
    if pyTruthy v then .ok (.bool true) else wfEvalOr sys ctx es

/-- WorkflowEngine chained comparison (lines 102-110). -/
def wfEvalCmp (sys : Sys) (ctx : List (String × Value)) (left : Value) :
    List (CmpOp × Expr) → Except String Value
  | [] => .ok (.bool true)
  | (op, e) :: rest => do
    let right ← wfEval sys ctx e
    if ← pyCmpOp op left right then wfEvalCmp sys ctx right rest
    else .ok (.bool false)

def wfEvalList (sys : Sys) (ctx : List (String × Value)) :
    List Expr → Except String (List Value)
  | [] => .ok []
  | e :: es => do pure ((← wfEval sys ctx e) :: (← wfEvalList sys ctx es))

def wfEvalPairs (sys : Sys) (ctx : List (String × Value)) :
    List (Expr × Expr) → Except String (List (String × Value))
  | [] => .ok []
  | (ke, ve) :: rest => do
    match ← wfEval sys ctx ke with
    | .str k => pure ((k, ← wfEval sys ctx ve) :: (← wfEvalPairs sys ctx rest))
    | _ => .error "TypeError: unhashable or non-string dict key"

end

/-- A Python identifier: letters, digits and underscores, not starting with
a digit. -/
def isIdentChar (c : Char) : Bool := c.isAlphanum || c = '_'

def isIdent (s : String) : Bool :=
  s ≠ "" && s.data.all isIdentChar && !(s.data.headD '_').isDigit

/-- Partial model of Python ast.parse (standard-library code, external to
the engine) for the expression fragment the claims exercise: dotted name
chains such as form.x or vars.a.  Other well-formed Python expressions are
outside the modelled fragment and map to a parse error here. -/
def splitDots : List Char → List (List Char)
  | [] => [[]]
  | c :: cs =>
    if c = '.' then [] :: splitDots cs
    else
      match splitDots cs with
      | h :: t => (c :: h) :: t
      | [] => [[c]]

def parseExprStr (s : String) : Option Expr :=
  match (splitDots (trimCh s.data)).map String.mk with
  | [] => none
  | p :: rest =>
    if isIdent p && rest.all isIdent then
      some (rest.foldl (fun acc f => Expr.attr acc f) (Expr.name p))
    else none

/-- SafeEvaluator.eval (engine.py lines 87-102): parse, validate against the
whitelist, then evaluate over the context.  Parsing and validation are
folded into parseExprStr and the Expr type. -/
def safeEvalStr (sys : Sys) (ctx : List (String × Value)) (s : String) :
    Except String Value :=
  match parseExprStr s with
  | some e => evalE sys ctx e
  | none => .error ("Invalid or unmodelled expression: " ++ s)

/-- A character admissible inside a placeholder body, per the engine's
template regex TEMPLATE_RE (engine.py line 18), whose body class excludes
both braces. -/
def braceFreeChar (c : Char) : Bool := c ≠ lbrace && c ≠ rbrace

/-- Scan a placeholder body after the opener: collect brace-free characters
up to a closing brace (the regex body class excludes both braces, so an
opening brace or the end of input means no match). -/
def scanInner : List Char → Option (List Char × List Char)
  | [] => none
  | c :: rest =>
    if c = rbrace then some ([], rest)
    else
      if c = lbrace then none
      else
        match scanInner rest with
        | some (inner, tail) => some (c :: inner, tail)
        | none => none

theorem scanInner_length {l inner rest : List Char}
    (h : scanInner l = some (inner, rest)) : rest.length < l.length := by
  induction l generalizing inner rest with
  | nil => simp [scanInner] at h
  | cons c cs ih =>
    simp only [scanInner] at h
    split at h
    · obtain ⟨-, h2⟩ := Prod.mk.injEq .. ▸ Option.some.inj h
      simp [← h2]
    · split at h
      · simp at h
      · rcases hs : scanInner cs with - | ⟨inner1, tail1⟩ <;> rw [hs] at h
        · simp at h
        · obtain ⟨-, h2⟩ := Prod.mk.injEq .. ▸ Option.some.inj h
          have := ih hs
          simp only [← h2, List.length_cons]
          omega

theorem scanInner_shape {l inner rest : List Char}
    (h : scanInner l = some (inner, rest)) :
    l = inner ++ rbrace :: rest ∧ inner.all braceFreeChar := by
  induction l generalizing inner rest with
  | nil => simp [scanInner] at h
  | cons c cs ih =>
    simp only [scanInner] at h
    split at h
    · obtain ⟨h1, h2⟩ := Prod.mk.injEq .. ▸ Option.some.inj h
      subst h1; subst h2
      simp_all
    · split at h
      · simp at h
      · rcases hs : scanInner cs with - | ⟨inner1, tail1⟩ <;> rw [hs] at h
        · simp at h
        · obtain ⟨h1, h2⟩ := Prod.mk.injEq .. ▸ Option.some.inj h
          subst h1; subst h2
          obtain ⟨ih1, ih2⟩ := ih hs
          subst ih1
          simp_all [braceFreeChar]

/-- Attempt to match the template regex at the head of the character list:
a dollar, an opening brace, one or more brace-free characters, a closing
brace.  Returns the placeholder body and the remaining characters. -/
def tryMatch (l : List Char) : Option (List Char × List Char) :=
  match l with
  | a :: b :: rest =>
    if a = '$' && b = lbrace then
      match scanInner rest with
      | some (inner, tail) => if inner.isEmpty then none else some (inner, tail)
      | none => none
    else none
  | _ => none

theorem tryMatch_rest_length {l inner rest : List Char}
    (h : tryMatch l = some (inner, rest)) : rest.length < l.length := by
  match l with
  | [] => simp [tryMatch] at h
  | [a] => simp [tryMatch] at h
  | a :: b :: t =>
    simp only [tryMatch] at h
    split at h
    · rcases hs : scanInner t with - | ⟨inner1, tail1⟩
      · simp [hs] at h
      · rcases hi : inner1.isEmpty with - | -
        · simp [hs, hi] at h
          have := scanInner_length hs
          simp only [← h.2, List.length_cons]
          omega
        · simp [hs, hi] at h
    · simp at h

/-- Python str(result) with None mapped to the empty string, as done by the
_replace substitution callbacks in both template renderers. -/
def pyStrNull (v : Value) : String :=
  match v with
  | .null => ""
  | v => pyStr v

/-- TEMPLATE_RE.sub over a character list (engine.py lines 113-117): Python
re.sub scans for the leftmost match, substitutes the stringified evaluation
of the stripped placeholder body, and resumes after the match; characters
not starting a match are copied verbatim.  Recursion is by fuel, which the
wrapper subst sets to the input length; each step consumes at least one
character, so the fuel never runs out (substGo_eq_of_le below). -/
def substGo (ev : String → Except String Value) :
    Nat → List Char → Except String (List Char)
  | _, [] => .ok []
  | 0, l => .ok l
  | fuel + 1, c :: cs =>
    match tryMatch (c :: cs) with
    | some (inner, rest) => do
      let v ← ev (String.mk (trimCh inner))
      let tail ← substGo ev fuel rest
      pure ((pyStrNull v).data ++ tail)
    | none => do
      let tail ← substGo ev fuel cs
      pure (c :: tail)

def subst (ev : String → Except String Value) (l : List Char) :
    Except String (List Char) :=
  substGo ev l.length l

theorem substGo_eq_of_le (ev : String → Except String Value) :
    ∀ (fuel1 fuel2 : Nat) (l : List Char), l.length ≤ fuel1 → l.length ≤ fuel2 →
    substGo ev fuel1 l = substGo ev fuel2 l := by
  intro fuel1
  induction fuel1 with
  | zero =>
    intro fuel2 l h1 _
    have : l = [] := List.eq_nil_of_length_eq_zero (Nat.le_zero.mp h1)
    subst this
    cases fuel2 <;> simp [substGo]
  | succ f1 ih =>
    intro fuel2 l h1 h2
    match l with
    | [] => cases fuel2 <;> simp [substGo]
    | c :: cs =>
      match fuel2 with
      | 0 => simp at h2
      | f2 + 1 =>
        simp only [substGo]
        rcases hm : tryMatch (c :: cs) with - | ⟨inner, rest⟩ <;> simp only [hm]
        · have hcs1 : cs.length ≤ f1 := by simp at h1; omega
          have hcs2 : cs.length ≤ f2 := by simp at h2; omega
          rw [ih f2 cs hcs1 hcs2]
        · have hr := tryMatch_rest_length hm
          have hr1 : rest.length ≤ f1 := by simp at h1 hr; omega
          have hr2 : rest.length ≤ f2 := by simp at h2 hr; omega
          rw [ih f2 rest hr1 hr2]

/-- TEMPLATE_RE.fullmatch: the whole input is a single placeholder. -/
def fullmatchTemplate (l : List Char) : Option (List Char) :=
  match tryMatch l with
  | some (inner, []) => some inner
  | _ => none

/-- render_template of the PipelineEngine (engine.py lines 105-117):
non-strings pass through; a string whose stripped content fullmatches the
template regex returns the native evaluation (None becoming the empty
string); otherwise every placeholder occurrence is substituted
stringified. -/
def renderTemplate (v : Value) (ev : String → Except String Value) :
    Except String Value :=
  match v with
  | .str s =>
    match fullmatchTemplate (trimCh s.data) with
    | some inner => do
      let r ← ev (String.mk (trimCh inner))
      pure (match r with | .null => .str "" | r => r)
    | none => do
      let out ← subst ev s.data
      pure (.str (String.mk out))
  | v => .ok v

/-- Does the list start with a placeholder opener? -/
def startsWithPh (l : List Char) : Bool :=
  match l with
  | a :: b :: _ => a = '$' && b = lbrace
  | _ => false

/-- Number of non-overlapping occurrences of the two-character opener, as
counted by Python str.count. -/
def countPh : List Char → Nat
  | [] => 0
  | a :: b :: rest => if a = '$' && b = lbrace then countPh rest + 1 else countPh (b :: rest)
  | _ :: rest => countPh rest

/-- str.find of the placeholder opener, returned as the split around it:
the characters before the opener and those after it. -/
def findPh : List Char → Option (List Char × List Char)
  | [] => none
  | a :: b :: rest =>
    if a = '$' && b = lbrace then some ([], rest)
    else
      match findPh (b :: rest) with
      | some (pre, post) => some (a :: pre, post)
      | none => none
  | _ :: _ => none

/-- str.find of a closing brace, as the split around the first one. -/
def splitAtBrace : List Char → Option (List Char × List Char)
  | [] => none
  | c :: rest =>
    if c = rbrace then some ([], rest)
    else
      match splitAtBrace rest with
      | some (pre, post) => some (c :: pre, post)
      | none => none

/-- The substitution loop of the standalone renderer
(src/yaml_cli_ui/expression.py lines 113-122): while an opener remains,
locate it, fail if no closing brace follows, otherwise evaluate the body and
splice the stringified result in.  The source loop has no bound (a
substitution may itself introduce an opener), so it is modelled with fuel;
running out of fuel reports a distinguished error standing for divergence. -/
def exprRenderLoop (ev : String → Except String Value) :
    Nat → List Char → Except String (List Char)
  | 0, _ => .error "model: substitution loop did not terminate"
  | fuel + 1, out =>
    match findPh out with
    | none => .ok out
    | some (pre, rest) =>
      match splitAtBrace rest with
      | none => .error "Unclosed template expression"
      | some (expr, after) => do
        let v ← ev (String.mk expr)
        exprRenderLoop ev fuel (pre ++ (pyStrNull v).data ++ after)

/-- render_template of the standalone expression module
(src/yaml_cli_ui/expression.py lines 106-122): non-strings pass through; a
string that starts with the opener, ends with a closing brace and contains
exactly one opener is evaluated natively (None becoming the empty string);
otherwise the substitution loop runs.  The expression evaluator of that
module is abstracted as the ev parameter. -/
def exprRenderTemplate (fuel : Nat) (raw : Value)
    (ev : String → Except String Value) : Except String Value :=
  match raw with
  | .str s =>
    if startsWithPh s.data && s.data.getLast? = some rbrace && countPh s.data = 1 then do
      let r ← ev (String.mk (s.data.drop 2).dropLast)
      pure (match r with | .null => .str "" | r => r)
    else do
      let out ← exprRenderLoop ev fuel s.data
      pure (.str (String.mk out))
  | v => .ok v

/-- An entry of a declarative argv spec (engine.py serialize_argv, lines
208-283): a literal string template, a single-key shorthand map, or an
extended option map. -/
structure ExtSpec where
  opt : String
  fromE : Value := .null
  mode : String := "auto"
  style : String := "separate"
  joiner : String := ","
  falseOpt : Option String := none
  omitIfEmpty : Bool := true
  template : Option String := none
  whenE : Option Value := none

inductive ArgvItem where
  | lit (s : String)
  | short (opt : String) (valueExpr : Value)
  | ext (e : ExtSpec)

/-- PipelineEngine._append_option (engine.py lines 285-292): a None value
appends the bare option name; style equals joins with an equals sign;
otherwise the pair is emitted separately with the value stringified. -/
def appendOption (opt style : String) (val : Value) : List String :=
  match val with
  | .null => [opt]
  | v => if style = "equals" then [opt ++ "=" ++ pyStr v] else [opt, pyStr v]

/-- Per-item formatting in repeat mode (engine.py line 270):
template.format(**entry) for map entries, template.format(entry) otherwise,
or the raw entry if no template; an empty template string is falsy in Python
and counts as absent. -/
def fmtEntry (sys : Sys) (template : Option String) (entry : Value) : Value :=
  match template with
  | some t =>
    if t = "" then entry
    else
      match entry with
      | .map kvs => .str (sys.pyFormatMap t kvs)
      | e => .str (sys.pyFormatPos t e)
  | none => entry

/-- Per-item formatting in join mode (engine.py line 276): as fmtEntry, but
the no-template fallback stringifies the entry. -/
def fmtEntryJoin (sys : Sys) (template : Option String) (entry : Value) : String :=
  match template with
  | some t =>
    if t = "" then pyStr entry
    else
      match entry with
      | .map kvs => sys.pyFormatMap t kvs
      | e => sys.pyFormatPos t e
  | none => pyStr entry

/-- The extended-map branch of PipelineEngine.serialize_argv (engine.py
lines 228-280): when-guard, render of `from`, auto mode resolution by value
type, the tri-state string short-circuit, omit-if-empty, then the
flag/value/repeat/join dispatch. -/
def serializeExt (sys : Sys) (ev : String → Except String Value) (it : ExtSpec) :
    Except String (List String) := do
  let skip ← match it.whenE with
    | some w => do pure (!pyTruthy (← renderTemplate w ev))
    | none => pure false
  if skip then pure [] else
  let value ← renderTemplate it.fromE ev
  let mode := if it.mode = "auto" then
      match value with
      | .bool _ => "flag"
      | .list _ => "repeat"
      | _ => "value"
    else it.mode
  let triState :=
    match value with
    | .str s => if s = "auto" || s = "true" || s = "false" then some s else none
    | _ => none
  match triState with
  | some s =>
    if s = "auto" then pure []
    else if s = "true" then pure [it.opt]
    else pure (match it.falseOpt with
      | some f => if f = "" then [] else [f]
      | none => [])
  | none =>
  if it.omitIfEmpty && isEmptyVal value then pure [] else
  if mode = "flag" then
    pure (match value with
      | .bool true => [it.opt]
      | .bool false =>
        (match it.falseOpt with
          | some f => if f = "" then [] else [f]
          | none => [])
      | _ => [])
  else if mode = "value" then
    pure (appendOption it.opt it.style value)
  else if mode = "repeat" then
    let values := match value with | .list xs => xs | v => [v]
    pure (values.flatMap (fun e => appendOption it.opt it.style (fmtEntry sys it.template e)))
  else if mode = "join" then
    let values := match value with | .list xs => xs | v => [v]
    let rendered := values.map (fmtEntryJoin sys it.template)
    pure (appendOption it.opt it.style (.str (String.intercalate it.joiner rendered)))
  else .error ("Unknown mode: " ++ mode)

/-- One argv spec item (engine.py lines 210-282): a literal is rendered and
stringified; a shorthand map emits per the rendered value's shape; an
extended map goes through serializeExt. -/
def serializeItem (sys : Sys) (ev : String → Except String Value) :
    ArgvItem → Except String (List String)
  | .lit s => do pure [pyStr (← renderTemplate (.str s) ev)]
  | .short opt vexpr => do
    let value ← renderTemplate vexpr ev
    match value with
    | .bool true => pure [opt]
    | .bool false => pure []
    | .null => pure []
    | .str "" => pure []
    | .list xs => pure (xs.flatMap (fun v => [opt, pyStr v]))
    | v => pure [opt, pyStr v]
  | .ext e => serializeExt sys ev e

/-- PipelineEngine.serialize_argv: items contribute left to right into one
argument vector. -/
def serializeArgv (sys : Sys) (ev : String → Except String Value)
    (items : List ArgvItem) : Except String (List String) :=
  match items with
  | [] => .ok []
  | it :: rest => do pure ((← serializeItem sys ev it) ++ (← serializeArgv sys ev rest))

/-- _render_option_value of the WorkflowEngine (src/src engine.py lines
434-439): with a truthy template, map values go through named formatting and
any other value through template.format(value=...); otherwise str(). -/
def wfRenderOptionValue (sys : Sys) (template : Option String) (value : Value) : String :=
  match template with
  | some t =>
    if t = "" then pyStr value
    else
      match value with
      | .map kvs => sys.pyFormatMap t kvs
      | v => sys.pyFormatVal t v
  | none => pyStr value

/-- _format_option of the WorkflowEngine (lines 442-445). -/
def wfFormatOption (opt value style : String) : List String :=
  if style = "equals" then [opt ++ "=" ++ value] else [opt, value]

/-- _serialize_extended of the WorkflowEngine (src/src engine.py lines
381-431).  Unlike the PipelineEngine, the tri-state strings are folded into
mode resolution: they force flag mode only when the declared mode is auto,
and the flag branch alone understands them; under any other explicit mode
they are treated as ordinary values.  evm abstracts
evaluate_maybe_template. -/
def wfSerializeExtended (sys : Sys) (evm : Value → Except String Value) (it : ExtSpec) :
    Except String (List String) := do
  let skip ← match it.whenE with
    | some w => do pure (!pyTruthy (← evm w))
    | none => pure false
  if skip then pure [] else
  let value ← evm it.fromE
  let mode := if it.mode = "auto" then
      (match value with
        | .bool _ => "flag"
        | .str s => if s = "auto" || s = "true" || s = "false" then "flag" else "value"
        | .list _ => "repeat"
        | _ => "value")
    else it.mode
  if mode = "flag" then
    if pyEq value (.bool true) || pyEq value (.str "true") then pure [it.opt]
    else if (pyEq value (.bool false) || pyEq value (.str "false")) &&
        (match it.falseOpt with | some f => f ≠ "" | none => false) then
      pure [(it.falseOpt.getD "")]
    else pure []
  else if it.omitIfEmpty && isEmptyVal value then pure [] else
  if mode = "value" then
    pure (wfFormatOption it.opt (wfRenderOptionValue sys it.template value) it.style)
  else if mode = "repeat" then
    let values := match value with | .list xs => xs | v => [v]
    pure (values.flatMap (fun v => wfFormatOption it.opt (wfRenderOptionValue sys it.template v) it.style))
  else if mode = "join" then
    let values := match value with | .list xs => xs | v => [v]
    let rendered := values.map (wfRenderOptionValue sys it.template)
    pure (wfFormatOption it.opt (String.intercalate it.joiner rendered) it.style)
  else .error ("Unsupported extended arg mode: " ++ mode)

/-- StepResult (engine.py lines 120-125). -/
structure StepResult where
  exitCode : Int
  stdout : String
  stderr : String
  durationMs : Nat
  deriving DecidableEq

/-- The run specification of a leaf step (engine.py _run_command, lines
404-518).  shell, capture and the stream modes only shape the spawned
process's I/O plumbing and are absorbed by the process oracle; the fields
kept here are those whose template rendering is engine logic. -/
structure RunSpec where
  program : Value := .null
  argv : List ArgvItem := []
  env : List (String × Value) := []
  workdir : Option Value := none
  timeoutMs : Option Nat := none

/-- A pipeline step (engine.py _run_steps, lines 345-380): a leaf run step,
a nested pipeline, a foreach loop (alias defaulting to item is resolved at
construction), or a dict with none of the three keys, which the engine
rejects at execution time. -/
inductive Step where
  | run (id : Option String) (whenE : Option Value) (coe : Bool) (spec : RunSpec)
  | pipe (id : Option String) (whenE : Option Value) (coe : Bool) (body : List Step)
  | each (id : Option String) (whenE : Option Value) (coe : Bool)
      (src : Value) (aliasName : String) (body : List Step)
  | unknownStep (id : Option String) (whenE : Option Value) (coe : Bool)

def stepIdOf : Step → Option String
  | .run i _ _ _ => i
  | .pipe i _ _ _ => i
  | .each i _ _ _ _ _ => i
  | .unknownStep i _ _ => i

def stepWhen : Step → Option Value
  | .run _ w _ _ => w
  | .pipe _ w _ _ => w
  | .each _ w _ _ _ _ => w
  | .unknownStep _ w _ => w

def coeOf : Step → Bool
  | .run _ _ c _ => c
  | .pipe _ _ c _ => c
  | .each _ _ c _ _ _ => c
  | .unknownStep _ _ c => c

/-- An action definition (run_action, lines 306-311): a pipeline or a run
shorthand, plus the on_error recovery pipeline that the tests exercise. -/
structure ActionDef where
  pipeline : Option (List Step) := none
  runSpec : Option RunSpec := none
  onError : Option (List Step) := none

/-- The engine's configuration after structural validation: global vars,
app-level env/workdir, the python runtime override, and the action map. -/
structure Config where
  vars : List (String × Value) := []
  appEnv : List (String × Value) := []
  appWorkdir : Option Value := none
  pythonExe : Option Value := none
  actions : List (String × ActionDef) := []

/-- The typed errors the interpreter raises.  The engine raises EngineError/
ActionCancelledError/TimeoutExpired with message strings; the constructors
keep the structured data (step id, exit code) those messages carry. -/
inductive RunError where
  | cancelled (stepId : String)
  | processExit (stepId : String) (code : Int)
  | timedOut (stepId : String)
  | exprError (stepId : String) (msg : String)
  | configError (stepId : String) (msg : String)
  deriving DecidableEq

/-- Behaviour of one spawned process, supplied by the oracle standing in for
subprocess.Popen: how many poll iterations the wait loop runs before the
process completes, whether the timeout deadline fires first, and the
captured result on completion. -/
structure ProcSpec where
  polls : Nat := 0
  timedOut : Bool := false
  result : StepResult := ⟨0, "", "", 0⟩

/-- Mutable state threaded through one action run: the accumulated step
results (a dict in the source), the chronological write log of results (for
stating the write-once claim), the number of cancellation-flag reads so far
(each is_set() call consults the cancellation oracle at the next index), and
the number of processes spawned so far (indexing the process oracle). -/
structure RunState where
  results : List (String × StepResult) := []
  writes : List (String × StepResult) := []
  consult : Nat := 0
  spawn : Nat := 0
  deriving DecidableEq

/-- The step-results scope entry: result.__dict__ of a StepResult. -/
def stepResultValue (r : StepResult) : Value :=
  .map [("exit_code", .int r.exitCode), ("stdout", .str r.stdout),
    ("stderr", .str r.stderr), ("duration_ms", .int r.durationMs)]

/-- A var declaration resolves to its default when it is a map carrying one
(_base_context lines 179-184). -/
def rawVarOf (v : Value) : Value :=
  match v with
  | .map kvs =>
    match alGet kvs "default" with
    | some d => d
    | none => .map kvs
  | v => v

/-- The context dict of _base_context before var-template resolution (lines
186-200): vars, form, env, step, cwd/home/temp/os, then the extra scope
merged on top via dict.update.  The len/empty/exists helpers live in the
Expr type rather than the context. -/
def mkCtxCore (sys : Sys) (form : List (String × Value))
    (results : List (String × StepResult)) (extra : List (String × Value))
    (varsVal : List (String × Value)) : List (String × Value) :=
  let base := [("vars", Value.map varsVal), ("form", Value.map form),
    ("env", Value.map (sys.env.map (fun p => (p.1, Value.str p.2)))),
    ("step", Value.map (results.map (fun p => (p.1, stepResultValue p.2)))),
    ("cwd", Value.str sys.cwd), ("home", Value.str sys.home),
    ("temp", Value.str sys.temp), ("os", Value.str sys.osName)]
  extra.foldl (fun acc p => alSet acc p.1 p.2) base

/-- The var-resolution loop of _base_context (lines 203-204): iterate over a
snapshot of the raw entries, writing each rendered value back into the dict.
The evaluator keeps reading ctx0, whose vars entry is the to_dotdict copy
taken before the loop, so resolved values never feed later templates. -/
def resolveVarsLoop (sys : Sys) (ctx0 : List (String × Value))
    (raws : List (String × Value)) : Except String (List (String × Value)) :=
  raws.foldlM (fun acc p => do
    pure (alSet acc p.1 (← renderTemplate p.2 (safeEvalStr sys ctx0)))) raws

/-- PipelineEngine._base_context (engine.py lines 177-206). -/
def baseContext (sys : Sys) (cfg : Config) (form : List (String × Value))
    (results : List (String × StepResult)) (extra : List (String × Value)) :
    Except String (List (String × Value)) := do
  let raws := cfg.vars.map (fun p => (p.1, rawVarOf p.2))
  let ctx0 := mkCtxCore sys form results extra raws
  let resolved ← resolveVarsLoop sys ctx0 raws
  pure (alSet ctx0 "vars" (.map resolved))

/-- One cancel_event.is_set() consultation: reads the oracle at the current
index and advances it; a set flag raises ActionCancelledError. -/
def checkCancel (cancel : Nat → Bool) (sid : String) (st : RunState) :
    Except (RunError × RunState) RunState :=
  if cancel st.consult then
    .error (.cancelled sid, { st with consult := st.consult + 1 })
  else .ok { st with consult := st.consult + 1 }

/-- The consultations made by the poll loop of _run_command (lines 473-500)
before the process completes: one is_set() read per iteration. -/
def pollChecks (cancel : Nat → Bool) (sid : String) :
    Nat → RunState → Except (RunError × RunState) RunState
  | 0, st => .ok st
  | n + 1, st =>
    match checkCancel cancel sid st with
    | .error e => .error e
    | .ok st1 => pollChecks cancel sid n st1

/-- PipelineEngine._resolve_program (lines 294-300): the python runtime
override maps the logical name python to the rendered executable. -/
def resolveProgram (cfg : Config) (ev : String → Except String Value)
    (program : String) : Except String String :=
  match cfg.pythonExe with
  | some exe => if program = "python" then do pure (pyStr (← renderTemplate exe ev)) else pure program
  | none => pure program

/-- PipelineEngine._run_command (lines 404-518): render the program and
resolve it, build argv, render workdir and the app- and step-level env
layers (app entries first, later layers winning by dict order), then spawn
and poll.  The spawned process itself is the oracle entry at the current
spawn index; the wait loop consults the cancellation flag once per poll
iteration, kills and raises on timeout, and re-checks cancellation once
after a completed wait before returning the captured StepResult. -/
def renderedPrep (sys : Sys) (cfg : Config) (spec : RunSpec)
    (ev : String → Except String Value) : Except String Unit := do
  let prog0 ← renderTemplate spec.program ev
  let _ ← resolveProgram cfg ev (pyStr prog0)
  let _ ← serializeArgv sys ev spec.argv
  let _ ← match spec.workdir with
    | some w => do pure (some (← renderTemplate w ev))
    | none =>
      match cfg.appWorkdir with
      | some w => do pure (some (← renderTemplate w ev))
      | none => pure none
  let _ ← cfg.appEnv.mapM (fun p => do pure (p.1, pyStr (← renderTemplate p.2 ev)))
  let _ ← spec.env.mapM (fun p => do pure (p.1, pyStr (← renderTemplate p.2 ev)))
  pure ()

def runCommand (sys : Sys) (cfg : Config) (cancel : Nat → Bool)
    (oracle : Nat → ProcSpec) (sid : String) (spec : RunSpec)
    (ev : String → Except String Value) (st : RunState) :
    Except (RunError × RunState) (StepResult × RunState) :=
  match renderedPrep sys cfg spec ev with
  | .error msg => .error (.exprError sid msg, st)
  | .ok _ =>
    match pollChecks cancel sid ((oracle st.spawn).polls + 1)
        { st with spawn := st.spawn + 1 } with
    | .error e => .error e
    | .ok st2 =>
      if (oracle st.spawn).timedOut then .error (.timedOut sid, st2)
      else
        match checkCancel cancel sid st2 with
        | .error e => .error e
        | .ok st3 => .ok ((oracle st.spawn).result, st3)

/-- The when-guard of a step (line 351): absent means run; present is
rendered and coerced by bool(). -/
def evalWhen (step : Step) (ev : String → Except String Value) :
    Except String Bool :=
  match stepWhen step with
  | some w => do pure (pyTruthy (← renderTemplate w ev))
  | none => pure true

mutual

/-- PipelineEngine._run_steps (engine.py lines 335-385).  Per step: read the
cancellation flag (raising outside the try block, so the step's own
continue_on_error cannot catch it), rebuild the scope context (also outside
the try block), evaluate the when guard (likewise outside), then dispatch;
any error from the dispatch body is caught and logged when the step sets
continue_on_error, keeping the state mutations made so far, and aborts the
pipeline otherwise.  The default step id step_N uses the current number of
recorded results; it is computed before the cancellation read purely to
attribute the raised error, which changes no behaviour. -/
def runSteps (sys : Sys) (cfg : Config) (cancel : Nat → Bool)
    (oracle : Nat → ProcSpec) (form : List (String × Value)) :
    List Step → List (String × Value) → RunState → Except (RunError × RunState) RunState
  | [], _, st => .ok st
  | step :: rest, scope, st =>
    let sid := (stepIdOf step).getD ("step_" ++ toString (st.results.length + 1))
    match checkCancel cancel sid st with
    | .error e => .error e
    | .ok st1 =>
      match baseContext sys cfg form st1.results scope with
      | .error msg => .error (.exprError sid msg, st1)
      | .ok ctx =>
        match evalWhen step (safeEvalStr sys ctx) with
        | .error msg => .error (.exprError sid msg, st1)
        | .ok false => runSteps sys cfg cancel oracle form rest scope st1
        | .ok true =>
          match runStepBody sys cfg cancel oracle form step sid scope ctx st1 with
          | .ok st2 => runSteps sys cfg cancel oracle form rest scope st2
          | .error (e, st2) =>
            if coeOf step then runSteps sys cfg cancel oracle form rest scope st2
            else .error (e, st2)
  termination_by steps _ _ => (sizeOf steps, 0)

/-- The dispatch body of one step (lines 356-380), executed inside the
engine's try block. -/
def runStepBody (sys : Sys) (cfg : Config) (cancel : Nat → Bool)
    (oracle : Nat → ProcSpec) (form : List (String × Value)) :
    Step → String → List (String × Value) → List (String × Value) → RunState →
    Except (RunError × RunState) RunState
  | .run _ _ coe spec, sid, _, ctx, st =>
    (match runCommand sys cfg cancel oracle sid spec (safeEvalStr sys ctx) st with
    | .error e => .error e
    | .ok (res, st1) =>
      let st2 := { st1 with
        results := alSet st1.results sid res,
        writes := st1.writes ++ [(sid, res)] }
      if res.exitCode ≠ 0 && !coe then .error (.processExit sid res.exitCode, st2)
      else .ok st2)
  | .pipe _ _ _ body, _, scope, _, st =>
    runSteps sys cfg cancel oracle form body scope st
  | .each _ _ _ src aliasName body, sid, scope, ctx, st =>
    (match renderTemplate src (safeEvalStr sys ctx) with
    | .error msg => .error (.exprError sid msg, st)
    | .ok v =>
      match v with
      | .list items => runForeach sys cfg cancel oracle form body aliasName scope items 0 st
      | _ => .error (.configError sid "foreach.in must evaluate to list", st))
  | .unknownStep _ _ _, sid, _, _, st =>
    .error (.configError sid ("Unknown step type in " ++ sid), st)
  termination_by step _ _ _ _ => (sizeOf step, 0)

/-- The foreach iteration (lines 374-378): per element, a copy of the scope
binds the alias and loop.index, then the body runs against it; bindings thus
never leak to sibling iterations or outside the loop. -/
def runForeach (sys : Sys) (cfg : Config) (cancel : Nat → Bool)
    (oracle : Nat → ProcSpec) (form : List (String × Value)) (body : List Step)
    (aliasName : String) (scope : List (String × Value)) :
    List Value → Nat → RunState → Except (RunError × RunState) RunState
  | [], _, st => .ok st
  | item :: restItems, idx, st =>
    let localScope := alSet (alSet scope aliasName item) "loop" (.map [("index", .int idx)])
    match runSteps sys cfg cancel oracle form body localScope st with
    | .ok st1 => runForeach sys cfg cancel oracle form body aliasName scope restItems (idx + 1) st1
    | .error e => .error e
  termination_by items _ _ => (sizeOf body, items.length + 1)

end

/-- Pipeline selection of run_action (lines 307-311): an explicit pipeline
wins; otherwise a run shorthand becomes a single-step pipeline whose
synthesized id is the action id suffixed with _run; neither is a config
error. -/
def pipelineOf (aid : String) (a : ActionDef) : Except String (List Step) :=
  match a.pipeline with
  | some p => .ok p
  | none =>
    match a.runSpec with
    | some r => .ok [Step.run (some (aid ++ "_run")) none false r]
    | none => .error "action.pipeline must be a list"

/-- PipelineEngine.run_action (engine.py lines 302-333) as present under
src/: look the action up, select its pipeline, and run it from an empty
result state.  The cancellation-registry bookkeeping in the try/finally is
shared-state lifecycle management with no effect on the returned value. -/
def runAction (sys : Sys) (cfg : Config) (cancel : Nat → Bool)
    (oracle : Nat → ProcSpec) (aid : String) (form : List (String × Value)) :
    Except (RunError × RunState) RunState :=
  match alGet cfg.actions aid with
  | none => .error (.configError aid ("Unknown action: " ++ aid), {})
  | some a =>
    match pipelineOf aid a with
    | .error m => .error (.configError aid m, {})
    | .ok pipeline => runSteps sys cfg cancel oracle form pipeline [] {}

/-- The structured failure context exposed to recovery pipelines and to the
caller: step id, error kind, human-readable message (spec section 4.4 step
4 and section 7). -/
structure ErrCtx where
  stepId : String
  kind : String
  message : String
  deriving DecidableEq

/-- The failure context carried by each interpreter error: the failing step
id, the error kind named by the spec (process_exit, cancelled, timeout,
expression, config), and the message the engine's exception carries. -/
def errCtxOf : RunError → ErrCtx
  | .cancelled sid => ⟨sid, "cancelled", "Action was stopped by user"⟩
  | .processExit sid code =>
    ⟨sid, "process_exit", "Step " ++ sid ++ " failed with exit code " ++ toString code⟩
  | .timedOut sid => ⟨sid, "timeout", "Step " ++ sid ++ " timed out"⟩
  | .exprError sid msg => ⟨sid, "expression", msg⟩
  | .configError sid msg => ⟨sid, "config", msg⟩

/-- The _meta record of a run result: status success or recovered, plus the
original failure context when recovered. -/
structure RunMeta where
  status : String
  error : Option ErrCtx
  deriving DecidableEq

/-- A run result as returned to the caller by the recovery-aware run_action:
the step-result map plus _meta. -/
structure RunOutcome where
  steps : List (String × StepResult)
  meta : RunMeta
  deriving DecidableEq

/-- The error raised by the recovery-aware run_action: either the original
engine error (no on_error declared) or the combined recovery error exposing
both failure contexts. -/
inductive RecFail where
  | plain (e : RunError)
  | recovery (primary : ErrCtx) (recoveryErr : ErrCtx)
  deriving DecidableEq

/-- The namespace applied to recovery step ids so they cannot collide with
primary step ids (tests/test_engine.py expects the _recovery. prefix). -/
def recoveryKey (k : String) : String := "_recovery." ++ k

/-- Modelled from the spec: the on_error handling of run_action (spec
section 4.4 step 4 and scenario C/D) is absent from the engine under src/ -
only tests/test_engine.py references ActionRecoveryError, the _meta record
and the _recovery. namespacing.  Faithful to the spec's words: the primary
pipeline runs as usual; on success the result carries _meta.status success;
on an uncaught failure with a declared on_error pipeline, the recovery
pipeline runs as a fresh nested run against a scope augmented with
error = (step_id, type, message) of the original failure, with the partial
primary results retained; recovery success yields _meta.status recovered
with the original error context and the recovery results under namespaced
ids; recovery failure raises a combined error exposing both contexts; with
no on_error the original error propagates unchanged. -/
def runActionRecovered (sys : Sys) (cfg : Config) (cancel : Nat → Bool)
    (oracle : Nat → ProcSpec) (aid : String) (form : List (String × Value)) :
    Except RecFail RunOutcome :=
  match alGet cfg.actions aid with
  | none => .error (.plain (.configError aid ("Unknown action: " ++ aid)))
  | some a =>
    match pipelineOf aid a with
    | .error m => .error (.plain (.configError aid m))
    | .ok pipeline =>
      match runSteps sys cfg cancel oracle form pipeline [] {} with
      | .ok st => .ok ⟨st.results, ⟨"success", none⟩⟩
      | .error (e, st) =>
        match a.onError with
        | none => .error (.plain e)
        | some recSteps =>
          let ectx := errCtxOf e
          let errScope := [("error", Value.map [("step_id", .str ectx.stepId),
            ("type", .str ectx.kind), ("message", .str ectx.message)])]
          match runSteps sys cfg cancel oracle form recSteps errScope
              { consult := st.consult, spawn := st.spawn } with
          | .ok rst =>
            .ok ⟨(rst.results.map (fun p => (recoveryKey p.1, p.2))).foldl
                (fun acc p => alSet acc p.1 p.2) st.results,
              ⟨"recovered", some ectx⟩⟩
          | .error (e2, _) =>
            .error (.recovery ectx { errCtxOf e2 with
              stepId := recoveryKey (errCtxOf e2).stepId })

theorem alGet_alSet_self {α : Type} (d : List (String × α)) (k : String) (v : α) :
    alGet (alSet d k v) k = some v := by
  induction d with
  | nil => simp [alGet, alSet]
  | cons p rest ih =>
    obtain ⟨k1, w⟩ := p
    by_cases h : k1 = k <;> simp [alGet, alSet, h, ih]

theorem alGet_alSet_ne {α : Type} (d : List (String × α)) (k1 k2 : String) (v : α)
    (h : k1 ≠ k2) : alGet (alSet d k1 v) k2 = alGet d k2 := by
  induction d with
  | nil => simp [alGet, alSet, h]
  | cons p rest ih =>
    obtain ⟨k0, w⟩ := p
    have h' : k2 ≠ k1 := fun hh => h hh.symm
    by_cases h0 : k0 = k1
    · subst h0
      simp [alGet, alSet, h]
    · by_cases h2 : k0 = k2 <;> simp [alGet, alSet, h0, h2, h', ih]

theorem alSet_keys_subset {α : Type} (d : List (String × α)) (k : String) (v : α) :
    ((alSet d k v).map Prod.fst) = if k ∈ d.map Prod.fst then d.map Prod.fst
      else d.map Prod.fst ++ [k] := by
  induction d with
  | nil => simp [alSet]
  | cons p rest ih =>
    obtain ⟨k0, w⟩ := p
    by_cases h0 : k0 = k
    · subst h0
      simp [alSet]
    · simp only [alSet, if_neg h0, List.map_cons, List.mem_cons]
      rw [ih]
      have : ¬ k = k0 := fun hh => h0 hh.symm
      by_cases hm : k ∈ rest.map Prod.fst <;> simp [hm, this]

theorem keysNodup_alSet {α : Type} (d : List (String × α)) (k : String) (v : α)
    (h : keysNodup d) : keysNodup (alSet d k v) := by
  simp only [keysNodup] at h
  simp only [keysNodup]
  rw [alSet_keys_subset]
  by_cases hm : k ∈ d.map Prod.fst <;> simp [hm, h, List.nodup_append]

/-- A run's result dict evolves only through alSet writes; applyWrites
replays a write log onto a dict. -/
def applyWrites (d : List (String × StepResult)) (l : List (String × StepResult)) :
    List (String × StepResult) :=
  l.foldl (fun acc p => alSet acc p.1 p.2) d

theorem applyWrites_append (d : List (String × StepResult))
    (l1 l2 : List (String × StepResult)) :
    applyWrites (applyWrites d l1) l2 = applyWrites d (l1 ++ l2) := by
  simp [applyWrites, List.foldl_append]

theorem applyWrites_nil (d : List (String × StepResult)) : applyWrites d [] = d := rfl

theorem keysNodup_applyWrites (d : List (String × StepResult))
    (l : List (String × StepResult)) (h : keysNodup d) : keysNodup (applyWrites d l) := by
  induction l generalizing d with
  | nil => exact h
  | cons p rest ih => exact ih _ (keysNodup_alSet _ _ _ h)

theorem alGet_applyWrites_of_notMem (d : List (String × StepResult))
    (l : List (String × StepResult)) (k : String) (h : k ∉ l.map Prod.fst) :
    alGet (applyWrites d l) k = alGet d k := by
  induction l generalizing d with
  | nil => rfl
  | cons p rest ih =>
    simp only [List.map_cons, List.mem_cons] at h
    push_neg at h
    have hrec := ih (alSet d p.1 p.2) h.2
    rw [applyWrites, List.foldl_cons,
      show (List.foldl (fun acc q => alSet acc q.1 q.2) (alSet d p.1 p.2) rest) =
        applyWrites (alSet d p.1 p.2) rest from rfl,
      hrec, alGet_alSet_ne _ _ _ _ (fun hh => h.1 hh.symm)]

/-- Replaying a write log with pairwise-distinct keys makes every logged
write the final value of its key. -/
theorem alGet_applyWrites_of_nodup (d : List (String × StepResult))
    (l : List (String × StepResult)) (hn : (l.map Prod.fst).Nodup) :
    ∀ p ∈ l, alGet (applyWrites d l) p.1 = some p.2 := by
  induction l generalizing d with
  | nil => simp
  | cons q rest ih =>
    intro p hp
    simp only [List.map_cons, List.nodup_cons] at hn
    rcases List.mem_cons.mp hp with h | h
    · subst h
      rw [applyWrites, List.foldl_cons,
        show (List.foldl (fun acc r => alSet acc r.1 r.2) (alSet d p.1 p.2) rest) =
          applyWrites (alSet d p.1 p.2) rest from rfl,
        alGet_applyWrites_of_notMem _ _ _ hn.1, alGet_alSet_self]
    · rw [applyWrites, List.foldl_cons,
        show (List.foldl (fun acc r => alSet acc r.1 r.2) (alSet d q.1 q.2) rest) =
          applyWrites (alSet d q.1 q.2) rest from rfl]
      exact ih _ hn.2 p h

/-- The state reached by a step execution, successful or not: the engine
mutates the same dict either way. -/
def outSt (out : Except (RunError × RunState) RunState) : RunState :=
  match out with
  | .ok st => st
  | .error (_, st) => st

/-- The state evolution contract of one interpreter call: results evolve by
replaying the new writes, the write log only grows, and the consultation and
spawn counters never decrease. -/
def stateEvolves (st : RunState) (out : Except (RunError × RunState) RunState) : Prop :=
  ∃ w, (outSt out).results = applyWrites st.results w ∧
    (outSt out).writes = st.writes ++ w ∧
    st.consult ≤ (outSt out).consult ∧ st.spawn ≤ (outSt out).spawn

theorem stateEvolves_refl (st : RunState) (out : Except (RunError × RunState) RunState)
    (h : outSt out = st) : stateEvolves st out := by
  refine ⟨[], ?_, ?_, ?_, ?_⟩ <;> simp [h, applyWrites]

theorem checkCancel_ok {cancel : Nat → Bool} {sid : String} {st st1 : RunState}
    (h : checkCancel cancel sid st = .ok st1) :
    st1.results = st.results ∧ st1.writes = st.writes ∧
      st1.consult = st.consult + 1 ∧ st1.spawn = st.spawn ∧
      cancel st.consult = false := by
  unfold checkCancel at h
  split at h
  · cases h
  · obtain ⟨rfl⟩ := h
    simp_all

theorem checkCancel_error {cancel : Nat → Bool} {sid : String} {st : RunState}
    {e : RunError × RunState} (h : checkCancel cancel sid st = .error e) :
    e.2.results = st.results ∧ e.2.writes = st.writes ∧
      e.2.consult = st.consult + 1 ∧ e.2.spawn = st.spawn := by
  unfold checkCancel at h
  split at h
  · cases h
    simp
  · cases h

theorem pollChecks_outSt {cancel : Nat → Bool} {sid : String} :
    ∀ (n : Nat) (st : RunState),
    (outSt (pollChecks cancel sid n st)).results = st.results ∧
      (outSt (pollChecks cancel sid n st)).writes = st.writes ∧
      st.consult ≤ (outSt (pollChecks cancel sid n st)).consult ∧
      (outSt (pollChecks cancel sid n st)).spawn = st.spawn := by
  intro n
  induction n with
  | zero => intro st; simp [pollChecks, outSt]
  | succ m ih =>
    intro st
    simp only [pollChecks]
    rcases hc : checkCancel cancel sid st with ⟨e⟩ | ⟨st1⟩ <;> simp only [hc]
    · obtain ⟨h1, h2, h3, h4⟩ := checkCancel_error hc
      simp only [outSt]
      exact ⟨h1, h2, by omega, h4⟩
    · obtain ⟨h1, h2, h3, h4, -⟩ := checkCancel_ok hc
      obtain ⟨g1, g2, g3, g4⟩ := ih st1
      exact ⟨by simp_all, by simp_all, by omega, by simp_all⟩

theorem runCommand_stateEvolves {sys : Sys} {cfg : Config} {cancel : Nat → Bool}
    {oracle : Nat → ProcSpec} {sid : String} {spec : RunSpec}
    {ev : String → Except String Value} {st : RunState} :
    (∀ res st1, runCommand sys cfg cancel oracle sid spec ev st = .ok (res, st1) →
      st1.results = st.results ∧ st1.writes = st.writes ∧
        st.consult ≤ st1.consult ∧ st.spawn ≤ st1.spawn) ∧
    (∀ e, runCommand sys cfg cancel oracle sid spec ev st = .error e →
      e.2.results = st.results ∧ e.2.writes = st.writes ∧
        st.consult ≤ e.2.consult ∧ st.spawn ≤ e.2.spawn) := by
  unfold runCommand
  rcases renderedPrep sys cfg spec ev with msg | -
  · constructor
    · intro res st1 h
      cases h
    · intro e h
      cases h
      exact ⟨rfl, rfl, Nat.le_refl _, Nat.le_refl _⟩
  · have hpoll := @pollChecks_outSt cancel sid
      ((oracle st.spawn).polls + 1) { st with spawn := st.spawn + 1 }
    rcases hp : pollChecks cancel sid ((oracle st.spawn).polls + 1)
        { st with spawn := st.spawn + 1 } with ⟨e1⟩ | ⟨st2⟩ <;>
      rw [hp] at hpoll <;> simp only [outSt] at hpoll
    · have h1 : e1.2.results = st.results := hpoll.1
      have h2 : e1.2.writes = st.writes := hpoll.2.1
      have h3 : st.consult ≤ e1.2.consult := hpoll.2.2.1
      have h4 : e1.2.spawn = st.spawn + 1 := hpoll.2.2.2
      constructor
      · intro res st1 h
        cases h
      · intro e h
        cases h
        exact ⟨h1, h2, h3, by omega⟩
    · have h1 : st2.results = st.results := hpoll.1
      have h2 : st2.writes = st.writes := hpoll.2.1
      have h3 : st.consult ≤ st2.consult := hpoll.2.2.1
      have h4 : st2.spawn = st.spawn + 1 := hpoll.2.2.2
      rcases ht : (oracle st.spawn).timedOut with - | -
      · simp only [ht, Bool.false_eq_true, if_false]
        rcases hc : checkCancel cancel sid st2 with ⟨e1⟩ | ⟨st3⟩
        · obtain ⟨g1, g2, g3, g4⟩ := checkCancel_error hc
          constructor
          · intro res st1 h
            cases h
          · intro e h
            cases h
            refine ⟨?_, ?_, ?_, ?_⟩
            · show e1.2.results = st.results
              rw [g1, h1]
            · show e1.2.writes = st.writes
              rw [g2, h2]
            · show st.consult ≤ e1.2.consult
              omega
            · show st.spawn ≤ e1.2.spawn
              omega
        · obtain ⟨g1, g2, g3, g4, -⟩ := checkCancel_ok hc
          constructor
          · intro res st1 h
            cases h
            refine ⟨?_, ?_, ?_, ?_⟩
            · rw [g1, h1]
            · rw [g2, h2]
            · omega
            · omega
          · intro e h
            cases h
      · simp only [ht, if_true]
        constructor
        · intro res st1 h
          cases h
        · intro e h
          cases h
          refine ⟨?_, ?_, ?_, ?_⟩
          · show st2.results = st.results
            exact h1
          · show st2.writes = st.writes
            exact h2
          · show st.consult ≤ st2.consult
            exact h3
          · show st.spawn ≤ st2.spawn
            omega

theorem stateEvolves_trans_ok (w1 : List (String × StepResult))
    {st st1 : RunState}
    {out : Except (RunError × RunState) RunState}
    (h1 : st1.results = applyWrites st.results w1 ∧ st1.writes = st.writes ++ w1 ∧
      st.consult ≤ st1.consult ∧ st.spawn ≤ st1.spawn)
    (h2 : stateEvolves st1 out) : stateEvolves st out := by
  obtain ⟨w2, g1, g2, g3, g4⟩ := h2
  exact ⟨w1 ++ w2, by rw [g1, h1.1, applyWrites_append],
    by rw [g2, h1.2.1, List.append_assoc], by omega, by omega⟩

theorem stateEvolves_parts {st st1 : RunState}
    (h1 : st1.results = st.results) (h2 : st1.writes = st.writes)
    (h3 : st.consult ≤ st1.consult) (h4 : st.spawn ≤ st1.spawn)
    {out : Except (RunError × RunState) RunState} (hout : outSt out = st1) :
    stateEvolves st out :=
  ⟨[], by rw [hout, h1, applyWrites_nil], by rw [hout, h2, List.append_nil],
    by rw [hout]; omega, by rw [hout]; omega⟩

/-- The state-evolution contract of the interpreter: through any pipeline
execution, successful or failed, the result dict evolves exactly by
replaying the newly logged writes, and the consultation and spawn counters
never decrease. -/
theorem runSteps_stateEvolves (sys : Sys) (cfg : Config) (cancel : Nat → Bool)
    (oracle : Nat → ProcSpec) (form : List (String × Value)) :
    ∀ (steps : List Step) (scope : List (String × Value)) (st : RunState),
    stateEvolves st (runSteps sys cfg cancel oracle form steps scope st) := by
  apply runSteps.induct sys cfg cancel oracle form
    (fun steps scope st =>
      stateEvolves st (runSteps sys cfg cancel oracle form steps scope st))
    (fun step sid scope ctx st =>
      stateEvolves st (runStepBody sys cfg cancel oracle form step sid scope ctx st))
    (fun body aliasName scope items idx st =>
      stateEvolves st (runForeach sys cfg cancel oracle form body aliasName scope items idx st))
  case case1 =>
    intro scope st
    exact stateEvolves_refl _ _ (by simp [runSteps, outSt])
  case case2 =>
    intro step rest scope st sid e hc
    obtain ⟨h1, h2, h3, h4⟩ := checkCancel_error hc
    rw [show runSteps sys cfg cancel oracle form (step :: rest) scope st = .error e from by
      simp [runSteps, hc]]
    exact stateEvolves_parts h1 h2 (by omega) (by omega) rfl
  case case3 =>
    intro step rest scope st sid st1 hc msg hbc
    obtain ⟨h1, h2, h3, h4, -⟩ := checkCancel_ok hc
    rw [show runSteps sys cfg cancel oracle form (step :: rest) scope st =
        .error (.exprError sid msg, st1) from by simp [runSteps, hc, hbc]]
    exact stateEvolves_parts h1 h2 (by omega) (by omega) rfl
  case case4 =>
    intro step rest scope st sid st1 hc ctx hbc msg hwh
    obtain ⟨h1, h2, h3, h4, -⟩ := checkCancel_ok hc
    rw [show runSteps sys cfg cancel oracle form (step :: rest) scope st =
        .error (.exprError sid msg, st1) from by simp [runSteps, hc, hbc, hwh]]
    exact stateEvolves_parts h1 h2 (by omega) (by omega) rfl
  case case5 =>
    intro step rest scope st sid st1 hc ctx hbc hwh ih
    obtain ⟨h1, h2, h3, h4, -⟩ := checkCancel_ok hc
    rw [show runSteps sys cfg cancel oracle form (step :: rest) scope st =
        runSteps sys cfg cancel oracle form rest scope st1 from by
      simp [runSteps, hc, hbc, hwh]]
    exact stateEvolves_trans_ok [] ⟨by rw [h1, applyWrites_nil],
      by rw [h2, List.append_nil], by omega, by omega⟩ ih
  case case6 =>
    intro step rest scope st sid st1 hc ctx hbc hwh st2 hbody ih2 ih1
    obtain ⟨h1, h2, h3, h4, -⟩ := checkCancel_ok hc
    rw [show runSteps sys cfg cancel oracle form (step :: rest) scope st =
        runSteps sys cfg cancel oracle form rest scope st2 from by
      simp [runSteps, hc, hbc, hwh, hbody]]
    rw [hbody] at ih2
    obtain ⟨w, g1, g2, g3, g4⟩ := ih2
    simp only [outSt] at g1 g2 g3 g4
    refine stateEvolves_trans_ok w ⟨?_, ?_, ?_, ?_⟩ ih1
    · rw [g1, h1]
    · rw [g2, h2]
    · omega
    · omega
  case case7 =>
    intro step rest scope st sid st1 hc ctx hbc hwh e st2 hbody hcoe ih2 ih1
    obtain ⟨h1, h2, h3, h4, -⟩ := checkCancel_ok hc
    rw [show runSteps sys cfg cancel oracle form (step :: rest) scope st =
        runSteps sys cfg cancel oracle form rest scope st2 from by
      simp [runSteps, hc, hbc, hwh, hbody, hcoe]]
    rw [hbody] at ih2
    obtain ⟨w, g1, g2, g3, g4⟩ := ih2
    simp only [outSt] at g1 g2 g3 g4
    refine stateEvolves_trans_ok w ⟨?_, ?_, ?_, ?_⟩ ih1
    · rw [g1, h1]
    · rw [g2, h2]
    · omega
    · omega
  case case8 =>
    intro step rest scope st sid st1 hc ctx hbc hwh e st2 hbody hcoe ih2
    obtain ⟨h1, h2, h3, h4, -⟩ := checkCancel_ok hc
    rw [show runSteps sys cfg cancel oracle form (step :: rest) scope st =
        .error (e, st2) from by simp [runSteps, hc, hbc, hwh, hbody, hcoe]]
    rw [hbody] at ih2
    obtain ⟨w, g1, g2, g3, g4⟩ := ih2
    simp only [outSt] at g1 g2 g3 g4
    refine ⟨w, ?_, ?_, ?_, ?_⟩ <;> simp only [outSt]
    · rw [g1, h1]
    · rw [g2, h2]
    · omega
    · omega
  case case9 =>
    intro id whenE coe spec sid x ctx st e hcmd
    rw [show runStepBody sys cfg cancel oracle form (Step.run id whenE coe spec) sid x ctx st =
        .error e from by simp [runStepBody, hcmd]]
    obtain ⟨h1, h2, h3, h4⟩ := runCommand_stateEvolves.2 e hcmd
    exact stateEvolves_parts h1 h2 h3 h4 rfl
  case case10 =>
    intro id whenE coe spec sid x ctx st res st1 hcmd hexit
    obtain ⟨h1, h2, h3, h4⟩ := runCommand_stateEvolves.1 res st1 hcmd
    simp only [runStepBody, hcmd, hexit, if_true]
    refine ⟨[(sid, res)], ?_, ?_, ?_, ?_⟩ <;> simp only [outSt]
    · rw [show applyWrites st.results [(sid, res)] = alSet st.results sid res from rfl, h1]
    · rw [h2]
    · omega
    · omega
  case case11 =>
    intro id whenE coe spec sid x ctx st res st1 hcmd hexit
    obtain ⟨h1, h2, h3, h4⟩ := runCommand_stateEvolves.1 res st1 hcmd
    rw [Bool.not_eq_true] at hexit
    simp only [runStepBody, hcmd, hexit, Bool.false_eq_true, if_false]
    refine ⟨[(sid, res)], ?_, ?_, ?_, ?_⟩ <;> simp only [outSt]
    · rw [show applyWrites st.results [(sid, res)] = alSet st.results sid res from rfl, h1]
    · rw [h2]
    · omega
    · omega
  case case12 =>
    intro id whenE coe body x scope x1 st ih
    rw [show runStepBody sys cfg cancel oracle form (Step.pipe id whenE coe body) x scope x1 st =
        runSteps sys cfg cancel oracle form body scope st from by simp [runStepBody]]
    exact ih
  case case13 =>
    intro id whenE coe src aliasName body sid scope ctx st msg hrend
    rw [show runStepBody sys cfg cancel oracle form (Step.each id whenE coe src aliasName body)
        sid scope ctx st = .error (.exprError sid msg, st) from by simp [runStepBody, hrend]]
    exact stateEvolves_refl _ _ rfl
  case case14 =>
    intro id whenE coe src aliasName body sid scope ctx st xs hrend ih
    rw [show runStepBody sys cfg cancel oracle form (Step.each id whenE coe src aliasName body)
        sid scope ctx st =
        runForeach sys cfg cancel oracle form body aliasName scope xs 0 st from by
      simp [runStepBody, hrend]]
    exact ih
  case case15 =>
    intro id whenE coe src aliasName body sid scope ctx st v hnotlist hrend
    rcases v <;> simp only [runStepBody, hrend] <;>
      first
        | exact stateEvolves_refl _ _ rfl
        | exact absurd rfl (hnotlist _)
  case case16 =>
    intro id whenE coe sid x x1 st
    rw [show runStepBody sys cfg cancel oracle form (Step.unknownStep id whenE coe)
        sid x x1 st = .error (.configError sid ("Unknown step type in " ++ sid), st) from by
      simp [runStepBody]]
    exact stateEvolves_refl _ _ rfl
  case case17 =>
    intro body aliasName scope x st
    exact stateEvolves_refl _ _ (by simp [runForeach, outSt])
  case case18 =>
    intro body aliasName scope item restItems idx st localScope st1 hrun ih1 ih3
    rw [show runForeach sys cfg cancel oracle form body aliasName scope (item :: restItems)
        idx st = runForeach sys cfg cancel oracle form body aliasName scope restItems
        (idx + 1) st1 from by simp [runForeach, hrun]]
    rw [hrun] at ih1
    obtain ⟨w, g1, g2, g3, g4⟩ := ih1
    simp only [outSt] at g1 g2 g3 g4
    exact stateEvolves_trans_ok w ⟨g1, g2, g3, g4⟩ ih3
  case case19 =>
    intro body aliasName scope item restItems idx st localScope e hrun ih1
    rw [show runForeach sys cfg cancel oracle form body aliasName scope (item :: restItems)
        idx st = .error e from by simp [runForeach, hrun]]
    rw [hrun] at ih1
    exact ih1

mutual

/-- No step in the tree sets continue_on_error. -/
def noCoeStep : Step → Bool
  | .run _ _ c _ => !c
  | .pipe _ _ c body => !c && noCoeSteps body
  | .each _ _ c _ _ body => !c && noCoeSteps body
  | .unknownStep _ _ c => !c

def noCoeSteps : List Step → Bool
  | [] => true
  | s :: rest => noCoeStep s && noCoeSteps rest

end

theorem noCoeStep_coe {s : Step} (h : noCoeStep s = true) : coeOf s = false := by
  rcases s <;> simp only [noCoeStep, coeOf, Bool.and_eq_true, Bool.not_eq_true'] at h ⊢ <;>
    first | exact h | exact h.1

theorem noCoeStep_coe_run {i w c sp} (h : noCoeStep (Step.run i w c sp) = true) :
    c = false := by
  simpa [noCoeStep] using h

theorem pollChecks_ok {cancel : Nat → Bool} {sid : String} :
    ∀ (n : Nat) (st st1 : RunState), pollChecks cancel sid n st = .ok st1 →
    st1.consult = st.consult + n ∧ st1.results = st.results ∧ st1.writes = st.writes ∧
      st1.spawn = st.spawn ∧
      ∀ k, st.consult ≤ k → k < st1.consult → cancel k = false := by
  intro n
  induction n with
  | zero =>
    intro st st1 h
    cases h
    exact ⟨rfl, rfl, rfl, rfl, fun k h1 h2 => absurd h2 (by omega)⟩
  | succ m ih =>
    intro st st1 h
    simp only [pollChecks] at h
    rcases hc : checkCancel cancel sid st with ⟨e⟩ | ⟨stm⟩ <;> rw [hc] at h
    · cases h
    · obtain ⟨h1, h2, h3, h4, h5⟩ := checkCancel_ok hc
      obtain ⟨g1, g2, g3, g4, g5⟩ := ih stm st1 h
      refine ⟨by omega, by rw [g2, h1], by rw [g3, h2], by rw [g4, h4], ?_⟩
      intro k hk1 hk2
      by_cases hke : k = st.consult
      · rw [hke]
        exact h5
      · exact g5 k (by omega) hk2

theorem runCommand_ok_no_cancel {sys : Sys} {cfg : Config} {cancel : Nat → Bool}
    {oracle : Nat → ProcSpec} {sid : String} {spec : RunSpec}
    {ev : String → Except String Value} {st : RunState} {res : StepResult}
    {st1 : RunState}
    (h : runCommand sys cfg cancel oracle sid spec ev st = .ok (res, st1)) :
    ∀ k, st.consult ≤ k → k < st1.consult → cancel k = false := by
  unfold runCommand at h
  rcases hr : renderedPrep sys cfg spec ev with msg | _ <;> rw [hr] at h
  · simp at h
  · rcases hp : pollChecks cancel sid ((oracle st.spawn).polls + 1)
        { st with spawn := st.spawn + 1 } with ⟨e1⟩ | ⟨st2⟩ <;> rw [hp] at h
    · simp at h
    · obtain ⟨g1, g2, g3, g4, g5⟩ := pollChecks_ok _ _ _ hp
      rcases ht : (oracle st.spawn).timedOut with - | - <;> rw [ht] at h
      · simp only [Bool.false_eq_true, if_false] at h
        rcases hc : checkCancel cancel sid st2 with ⟨e1⟩ | ⟨st3⟩ <;> rw [hc] at h
        · simp at h
        · obtain ⟨f1, f2, f3, f4, f5⟩ := checkCancel_ok hc
          simp only [Except.ok.injEq, Prod.mk.injEq] at h
          obtain ⟨-, rfl⟩ := h
          intro k hk1 hk2
          by_cases hke : k = st2.consult
          · rw [hke]
            exact f5
          · have g1x : st2.consult =
                st.consult + ((oracle st.spawn).polls + 1) := g1
            exact g5 k (by omega) (by omega)
      · simp only [if_true] at h
        simp at h

/-- When no step downgrades errors with continue_on_error, a successful
pipeline run implies every cancellation-flag read made during it returned
false: a flag observed set always surfaces as an error. -/
theorem runSteps_ok_no_cancel (sys : Sys) (cfg : Config) (cancel : Nat → Bool)
    (oracle : Nat → ProcSpec) (form : List (String × Value)) :
    ∀ (steps : List Step) (scope : List (String × Value)) (st : RunState),
    noCoeSteps steps = true →
    ∀ st2, runSteps sys cfg cancel oracle form steps scope st = .ok st2 →
    ∀ k, st.consult ≤ k → k < st2.consult → cancel k = false := by
  apply runSteps.induct sys cfg cancel oracle form
    (fun steps scope st => noCoeSteps steps = true →
      ∀ st2, runSteps sys cfg cancel oracle form steps scope st = .ok st2 →
      ∀ k, st.consult ≤ k → k < st2.consult → cancel k = false)
    (fun step sid scope ctx st => noCoeStep step = true →
      ∀ st2, runStepBody sys cfg cancel oracle form step sid scope ctx st = .ok st2 →
      ∀ k, st.consult ≤ k → k < st2.consult → cancel k = false)
    (fun body aliasName scope items idx st => noCoeSteps body = true →
      ∀ st2, runForeach sys cfg cancel oracle form body aliasName scope items idx st = .ok st2 →
      ∀ k, st.consult ≤ k → k < st2.consult → cancel k = false)
  case case1 =>
    intro scope st hnc st2 heq k hk1 hk2
    rw [show runSteps sys cfg cancel oracle form [] scope st = .ok st from by
      simp [runSteps]] at heq
    cases heq
    omega
  case case2 =>
    intro step rest scope st sid e hc hnc st2 heq
    rw [show runSteps sys cfg cancel oracle form (step :: rest) scope st = .error e from by
      simp [runSteps, hc]] at heq
    cases heq
  case case3 =>
    intro step rest scope st sid st1 hc msg hbc hnc st2 heq
    rw [show runSteps sys cfg cancel oracle form (step :: rest) scope st =
        .error (.exprError sid msg, st1) from by simp [runSteps, hc, hbc]] at heq
    cases heq
  case case4 =>
    intro step rest scope st sid st1 hc ctx hbc msg hwh hnc st2 heq
    rw [show runSteps sys cfg cancel oracle form (step :: rest) scope st =
        .error (.exprError sid msg, st1) from by simp [runSteps, hc, hbc, hwh]] at heq
    cases heq
  case case5 =>
    intro step rest scope st sid st1 hc ctx hbc hwh ih hnc st2 heq
    simp only [noCoeSteps, Bool.and_eq_true] at hnc
    obtain ⟨h1, h2, h3, h4, h5⟩ := checkCancel_ok hc
    rw [show runSteps sys cfg cancel oracle form (step :: rest) scope st =
        runSteps sys cfg cancel oracle form rest scope st1 from by
      simp [runSteps, hc, hbc, hwh]] at heq
    intro k hk1 hk2
    by_cases hke : k = st.consult
    · rw [hke]
      exact h5
    · exact ih hnc.2 st2 heq k (by omega) hk2
  case case6 =>
    intro step rest scope st sid st1 hc ctx hbc hwh stmid hbody ih2 ih1 hnc st2 heq
    simp only [noCoeSteps, Bool.and_eq_true] at hnc
    obtain ⟨h1, h2, h3, h4, h5⟩ := checkCancel_ok hc
    rw [show runSteps sys cfg cancel oracle form (step :: rest) scope st =
        runSteps sys cfg cancel oracle form rest scope stmid from by
      simp [runSteps, hc, hbc, hwh, hbody]] at heq
    intro k hk1 hk2
    by_cases hke : k = st.consult
    · rw [hke]
      exact h5
    · by_cases hkm : k < stmid.consult
      · exact ih2 hnc.1 stmid hbody k (by omega) hkm
      · exact ih1 hnc.2 st2 heq k (by omega) hk2
  case case7 =>
    intro step rest scope st sid st1 hc ctx hbc hwh e stmid hbody hcoe ih2 ih1 hnc st2 heq
    simp only [noCoeSteps, Bool.and_eq_true] at hnc
    rw [noCoeStep_coe hnc.1] at hcoe
    cases hcoe
  case case8 =>
    intro step rest scope st sid st1 hc ctx hbc hwh e stmid hbody hcoe ih2 hnc st2 heq
    rw [show runSteps sys cfg cancel oracle form (step :: rest) scope st =
        .error (e, stmid) from by simp [runSteps, hc, hbc, hwh, hbody, hcoe]] at heq
    cases heq
  case case9 =>
    intro id whenE coe spec sid x ctx st e hcmd hnc st2 heq
    rw [show runStepBody sys cfg cancel oracle form (Step.run id whenE coe spec)
        sid x ctx st = .error e from by simp [runStepBody, hcmd]] at heq
    cases heq
  case case10 =>
    intro id whenE coe spec sid x ctx st res st1 hcmd hexit hnc st2 heq
    simp only [runStepBody, hcmd, hexit, if_true] at heq
    cases heq
  case case11 =>
    intro id whenE coe spec sid x ctx st res st1 hcmd hexit hnc st2 heq
    rw [Bool.not_eq_true] at hexit
    simp only [runStepBody, hcmd, hexit, Bool.false_eq_true, if_false,
      Except.ok.injEq] at heq
    intro k hk1 hk2
    rw [← heq] at hk2
    exact runCommand_ok_no_cancel hcmd k hk1 hk2
  case case12 =>
    intro id whenE coe body x scope x1 st ih hnc st2 heq
    simp only [noCoeStep, Bool.and_eq_true] at hnc
    rw [show runStepBody sys cfg cancel oracle form (Step.pipe id whenE coe body)
        x scope x1 st = runSteps sys cfg cancel oracle form body scope st from by
      simp [runStepBody]] at heq
    exact ih hnc.2 st2 heq
  case case13 =>
    intro id whenE coe src aliasName body sid scope ctx st msg hrend hnc st2 heq
    rw [show runStepBody sys cfg cancel oracle form (Step.each id whenE coe src aliasName body)
        sid scope ctx st = .error (.exprError sid msg, st) from by
      simp [runStepBody, hrend]] at heq
    cases heq
  case case14 =>
    intro id whenE coe src aliasName body sid scope ctx st xs hrend ih hnc st2 heq
    simp only [noCoeStep, Bool.and_eq_true] at hnc
    rw [show runStepBody sys cfg cancel oracle form (Step.each id whenE coe src aliasName body)
        sid scope ctx st =
        runForeach sys cfg cancel oracle form body aliasName scope xs 0 st from by
      simp [runStepBody, hrend]] at heq
    exact ih hnc.2 st2 heq
  case case15 =>
    intro id whenE coe src aliasName body sid scope ctx st v hnotlist hrend hnc st2 heq
    rcases v <;> simp only [runStepBody, hrend] at heq <;>
      first | cases heq | exact absurd rfl (hnotlist _)
  case case16 =>
    intro id whenE coe sid x x1 st hnc st2 heq
    rw [show runStepBody sys cfg cancel oracle form (Step.unknownStep id whenE coe)
        sid x x1 st = .error (.configError sid ("Unknown step type in " ++ sid), st) from by
      simp [runStepBody]] at heq
    cases heq
  case case17 =>
    intro body aliasName scope x st hnc st2 heq
    rw [show runForeach sys cfg cancel oracle form body aliasName scope [] x st = .ok st
        from by simp [runForeach]] at heq
    cases heq
    intro k hk1 hk2
    omega
  case case18 =>
    intro body aliasName scope item restItems idx st localScope st1 hrun ih1 ih3 hnc st2 heq
    rw [show runForeach sys cfg cancel oracle form body aliasName scope (item :: restItems)
        idx st = runForeach sys cfg cancel oracle form body aliasName scope restItems
        (idx + 1) st1 from by simp [runForeach, hrun]] at heq
    intro k hk1 hk2
    by_cases hkm : k < st1.consult
    · exact ih1 hnc st1 hrun k hk1 hkm
    · exact ih3 hnc st2 heq k (by omega) hk2
  case case19 =>
    intro body aliasName scope item restItems idx st localScope e hrun ih1 hnc st2 heq
    rw [show runForeach sys cfg cancel oracle form body aliasName scope (item :: restItems)
        idx st = .error e from by simp [runForeach, hrun]] at heq
    cases heq

/-- C4 counterexample: in the PipelineEngine evaluator, attribute access on
the map bound to m with the missing key k fails with an EngineError instead
of returning null, refuting the claim as stated at this input. -/
theorem C4_counterexample :
    evalE {} [("m", Value.map [("a", Value.int 1)])] (Expr.attr (Expr.name "m") "k") =
      .error "AttributeError: k" ∧
    evalE {} [("m", Value.map [("a", Value.int 1)])] (Expr.attr (Expr.name "m") "k") ≠
      .ok Value.null := by
  refine ⟨rfl, ?_⟩
  intro h
  rw [show evalE {} [("m", Value.map [("a", Value.int 1)])]
    (Expr.attr (Expr.name "m") "k") = .error "AttributeError: k" from rfl] at h
  cases h

/-- C4 (amended): attribute access on a map with a missing key returns null
in the WorkflowEngine expression evaluator but fails with an expression
error in the PipelineEngine evaluator (whose DotDict raises AttributeError);
with the key present both return the stored value, and attribute access on a
non-map value fails in the WorkflowEngine evaluator. -/
theorem C4_attr_access (sys : Sys) (ctx : List (String × Value)) (e : Expr) (f : String) :
    (∀ kvs, evalE sys ctx e = .ok (.map kvs) → alGet kvs f = none →
      evalE sys ctx (.attr e f) = .error ("AttributeError: " ++ f)) ∧
    (∀ kvs v, evalE sys ctx e = .ok (.map kvs) → alGet kvs f = some v →
      evalE sys ctx (.attr e f) = .ok v) ∧
    (∀ kvs, wfEval sys ctx e = .ok (.map kvs) → alGet kvs f = none →
      wfEval sys ctx (.attr e f) = .ok .null) ∧
    (∀ v, wfEval sys ctx e = .ok v → (∀ kvs, v ≠ .map kvs) →
      wfEval sys ctx (.attr e f) =
        .error "Attribute access only allowed on objects/maps") := by
  refine ⟨?_, ?_, ?_, ?_⟩
  · intro kvs h1 h2
    simp [evalE, h1, h2, bind, Except.bind]
  · intro kvs v h1 h2
    simp [evalE, h1, h2, bind, Except.bind]
  · intro kvs h1 h2
    simp [wfEval, h1, h2, bind, Except.bind]
  · intro v h1 h2
    rcases v <;> simp [wfEval, h1, bind, Except.bind] <;>
      exact absurd rfl (h2 _)

/-- C4 witness: the amended behaviour at concrete inputs. -/
theorem C4_attr_access_witness :
    evalE {} [("m", Value.map [("a", Value.int 1)])] (Expr.attr (Expr.name "m") "b") =
      .error ("AttributeError: " ++ "b") ∧
    evalE {} [("m", Value.map [("a", Value.int 1)])] (Expr.attr (Expr.name "m") "a") =
      .ok (.int 1) ∧
    wfEval {} [("m", Value.map [("a", Value.int 1)])] (Expr.attr (Expr.name "m") "b") =
      .ok .null ∧
    wfEval {} [("s", Value.str "x")] (Expr.attr (Expr.name "s") "b") =
      .error "Attribute access only allowed on objects/maps" :=
  ⟨(C4_attr_access {} _ (Expr.name "m") "b").1 _ rfl rfl,
   (C4_attr_access {} _ (Expr.name "m") "a").2.1 _ _ rfl rfl,
   (C4_attr_access {} _ (Expr.name "m") "b").2.2.1 _ rfl rfl,
   (C4_attr_access {} _ (Expr.name "s") "b").2.2.2 _ rfl (fun kvs h => by cases h)⟩

/-- C3 counterexample: in the WorkflowEngine variant, an extended entry with
explicit mode value and the tri-state string "true" is serialized as an
ordinary option-value pair instead of a bare flag, refuting the claim as
stated (the rendered from value is exactly "true" yet the contribution is
not [opt]). -/
theorem C3_counterexample :
    wfSerializeExtended {} (fun v => .ok v)
      { opt := "--x", fromE := .str "true", mode := "value" } = .ok ["--x", "true"] ∧
    ["--x", "true"] ≠ ["--x"] := by
  refine ⟨rfl, ?_⟩
  intro h
  cases h

/-- C3 (amended): in PipelineEngine.serialize_argv the tri-state strings are
always treated as flags, whatever the declared mode: "auto" contributes
nothing (even with false_opt set), "true" contributes exactly the option
name, and "false" contributes the false_opt when a non-empty one is
supplied and nothing otherwise.  In the WorkflowEngine variant the same
holds only when the declared mode is auto or flag. -/
theorem C3_tristate (sys : Sys) (ev : String → Except String Value)
    (evm : Value → Except String Value) (it : ExtSpec) (hw : it.whenE = none) :
    (renderTemplate it.fromE ev = .ok (.str "auto") →
      serializeExt sys ev it = .ok []) ∧
    (renderTemplate it.fromE ev = .ok (.str "true") →
      serializeExt sys ev it = .ok [it.opt]) ∧
    (renderTemplate it.fromE ev = .ok (.str "false") →
      serializeExt sys ev it = .ok (match it.falseOpt with
        | some f => if f = "" then [] else [f]
        | none => [])) ∧
    ((it.mode = "auto" ∨ it.mode = "flag") → evm it.fromE = .ok (.str "true") →
      wfSerializeExtended sys evm it = .ok [it.opt]) := by
  refine ⟨?_, ?_, ?_, ?_⟩
  · intro h
    simp [serializeExt, hw, h, bind, Except.bind, pure, Except.pure]
  · intro h
    simp [serializeExt, hw, h, bind, Except.bind, pure, Except.pure]
  · intro h
    simp [serializeExt, hw, h, bind, Except.bind, pure, Except.pure]
  · intro hm h
    rcases hm with hm | hm <;>
      simp [wfSerializeExtended, hw, h, hm, bind, Except.bind, pure, Except.pure, pyEq, numVal]

/-- C3 witness: the amended tri-state behaviour at concrete entries, with an
explicit non-flag mode on the engine side. -/
theorem C3_tristate_witness :
    serializeExt {} (fun _ => .error "unused")
      { opt := "--x", fromE := .str "auto", mode := "repeat",
        falseOpt := some "--no-x" } = .ok [] ∧
    serializeExt {} (fun _ => .error "unused")
      { opt := "--x", fromE := .str "true", mode := "join" } = .ok ["--x"] ∧
    serializeExt {} (fun _ => .error "unused")
      { opt := "--x", fromE := .str "false", mode := "value",
        falseOpt := some "--no-x" } = .ok ["--no-x"] ∧
    wfSerializeExtended {} (fun v => .ok v)
      { opt := "--x", fromE := .str "true", mode := "flag" } = .ok ["--x"] :=
  ⟨(C3_tristate {} _ (fun v => .ok v) _ rfl).1 rfl,
   (C3_tristate {} _ (fun v => .ok v) _ rfl).2.1 rfl,
   (C3_tristate {} _ (fun v => .ok v) _ rfl).2.2.1 rfl,
   (C3_tristate {} (fun _ => .error "unused") _ _ rfl).2.2.2 (Or.inr rfl) rfl⟩

theorem alSet_append_head {α : Type} (d : List (String × α)) (k : String) (v r : α)
    (rest : List (String × α)) (h : k ∉ d.map Prod.fst) :
    alSet (d ++ (k, v) :: rest) k r = d ++ (k, r) :: rest := by
  induction d with
  | nil => simp [alSet]
  | cons p tail ih =>
    obtain ⟨a, b⟩ := p
    simp only [List.map_cons, List.mem_cons] at h
    push_neg at h
    simp only [List.cons_append, alSet]
    rw [if_neg (Ne.symm h.1)]
    exact congrArg ((a, b) :: ·) (ih h.2)

theorem resolveVarsLoop_go (sys : Sys) (ctx0 : List (String × Value)) :
    ∀ (todo pre : List (String × Value)), keysNodup (pre ++ todo) →
    todo.foldlM (fun acc p => do
      pure (alSet acc p.1 (← renderTemplate p.2 (safeEvalStr sys ctx0)))) (pre ++ todo) =
    (do
      let rendered ← todo.mapM (fun p => do
        pure (p.1, ← renderTemplate p.2 (safeEvalStr sys ctx0)))
      pure (pre ++ rendered)) := by
  intro todo
  induction todo with
  | nil =>
    intro pre hn
    simp [List.foldlM, List.mapM, List.mapM.loop, pure, Except.pure, bind,
      Except.bind, Functor.map, Except.map]
  | cons q rest ih =>
    intro pre hn
    obtain ⟨k, v⟩ := q
    have hk : k ∉ pre.map Prod.fst := by
      simp only [keysNodup, List.map_append, List.nodup_append] at hn
      intro hmem
      exact hn.2.2 hmem (by simp)
    rcases hr : renderTemplate v (safeEvalStr sys ctx0) with msg | r
    · rw [List.foldlM_cons, List.mapM_cons]
      simp [hr, bind, Except.bind, pure, Except.pure]
    · have hset := alSet_append_head pre k v r rest hk
      have hn2 : keysNodup (pre ++ (k, r) :: rest) := by
        simpa only [keysNodup, List.map_append, List.map_cons] using hn
      have hih := ih (pre ++ [(k, r)])
      simp only [List.append_assoc, List.singleton_append] at hih
      have hih2 := hih hn2
      rw [List.foldlM_cons, List.mapM_cons]
      simp only [bind, Except.bind, pure, Except.pure] at hih2 ⊢
      simp only [hr, hset]
      rw [hih2]
      rcases hm : rest.mapM (fun p => do
          pure (p.1, ← renderTemplate p.2 (safeEvalStr sys ctx0))) with e | ys <;>
        simp only [bind, Except.bind, pure, Except.pure] at hm <;> rw [hm]

/-- C5 counterexample: with vars a = a form template and b referencing
vars.a, the resolved b is the raw, unrendered template text of a rather than
a's resolved value: later vars do not see the resolved values of earlier
ones (the evaluator reads the snapshot taken before the loop). -/
theorem C5_counterexample :
    (baseContext {} { vars := [("a", Value.str "$\x7bform.x\x7d"),
        ("b", Value.str "$\x7bvars.a\x7d")] }
      [("x", Value.int 1)] [] []).map (fun ctx => alGet ctx "vars") =
      .ok (some (Value.map [("a", Value.int 1), ("b", Value.str "$\x7bform.x\x7d")])) ∧
    Value.str "$\x7bform.x\x7d" ≠ Value.int 1 := by
  refine ⟨rfl, ?_⟩
  intro h
  cases h

/-- C5 (amended): at every context construction (the engine rebuilds the
context, and with it the vars, before each step evaluation), the var
templates are each rendered exactly once, in declaration order, every one
against the pre-resolution snapshot ctx0 in which vars holds the raw
declarations - so no var sees another var's resolved value; the context
handed to the step then carries the fully resolved vars map. -/
theorem C5_vars_resolution (sys : Sys) (ctx0 : List (String × Value))
    (raws : List (String × Value)) (hn : keysNodup raws) :
    resolveVarsLoop sys ctx0 raws =
      raws.mapM (fun p => do
        pure (p.1, ← renderTemplate p.2 (safeEvalStr sys ctx0))) ∧
    ∀ (cfg : Config) (form : List (String × Value))
      (results : List (String × StepResult)) (extra ctx : List (String × Value)),
      baseContext sys cfg form results extra = .ok ctx →
      ∃ resolved,
        resolveVarsLoop sys
          (mkCtxCore sys form results extra (cfg.vars.map (fun p => (p.1, rawVarOf p.2))))
          (cfg.vars.map (fun p => (p.1, rawVarOf p.2))) = .ok resolved ∧
        alGet ctx "vars" = some (.map resolved) := by
  constructor
  · have := resolveVarsLoop_go sys ctx0 raws [] (by simpa using hn)
    simp only [List.nil_append] at this
    rw [resolveVarsLoop, this]
    exact bind_pure _
  · intro cfg form results extra ctx hbc
    unfold baseContext at hbc
    simp only [bind, Except.bind, pure, Except.pure] at hbc
    rcases hr : resolveVarsLoop sys
        (mkCtxCore sys form results extra (cfg.vars.map (fun p => (p.1, rawVarOf p.2))))
        (cfg.vars.map (fun p => (p.1, rawVarOf p.2))) with msg | resolved <;>
      rw [hr] at hbc
    · simp at hbc
    · simp only [Except.ok.injEq] at hbc
      exact ⟨resolved, hr, by rw [← hbc, alGet_alSet_self]⟩

/-- C6 counterexample: a foreach whose body step carries the explicit id x
executes twice; the second iteration's write replaces the first recorded
StepResult under x, refuting write-once at this concrete run (the write log
shows both writes, the final map keeps only the later one). -/
theorem C6_counterexample :
    runSteps {} {} (fun _ => false)
      (fun k => { polls := 0, timedOut := false,
                  result := ⟨0, toString k, "", 0⟩ }) []
      [Step.each none none false (.list [.str "1", .str "2"]) "job"
        [Step.run (some "x") none false { program := .str "p" }]] []
      { results := [], writes := [], consult := 0, spawn := 0 } =
      .ok { results := [("x", ⟨0, "1", "", 0⟩)],
            writes := [("x", ⟨0, "0", "", 0⟩), ("x", ⟨0, "1", "", 0⟩)],
            consult := 7, spawn := 2 } ∧
    StepResult.mk 0 "0" "" 0 ≠ StepResult.mk 0 "1" "" 0 := by
  constructor
  · simp [runSteps, runStepBody, runForeach, runCommand, renderedPrep, baseContext,
      resolveVarsLoop, mkCtxCore, checkCancel, pollChecks, evalWhen, stepWhen, stepIdOf,
      coeOf, renderTemplate, fullmatchTemplate, tryMatch, scanInner, subst, substGo,
      trimCh, pyWs, serializeArgv, resolveProgram, pyStr, pyRepr, alSet, alGet,
      pure, Except.pure, bind, Except.bind, Functor.map, Except.map,
      List.mapM, List.mapM.loop, List.foldlM]
    decide
  · decide

/-- C6 (amended): the accumulated step-result map is write-once provided the
executed run steps record pairwise-distinct step ids (the engine does not
enforce this): when the write log of a successful run has no duplicate key,
every logged write is still the final map entry for its id.  A duplicated
id - explicit, or a default step_N colliding with an explicit one - is
silently replaced by the later write. -/
theorem C6_write_once (sys : Sys) (cfg : Config) (cancel : Nat → Bool)
    (oracle : Nat → ProcSpec) (form : List (String × Value)) (steps : List Step)
    (scope : List (String × Value)) (c s : Nat) (st : RunState)
    (h : runSteps sys cfg cancel oracle form steps scope
      { results := [], writes := [], consult := c, spawn := s } = .ok st)
    (hn : keysNodup st.writes) :
    ∀ p ∈ st.writes, alGet st.results p.1 = some p.2 := by
  have hevo := runSteps_stateEvolves sys cfg cancel oracle form steps scope
    { results := [], writes := [], consult := c, spawn := s }
  rw [h] at hevo
  obtain ⟨w, h1, h2, -, -⟩ := hevo
  simp only [outSt] at h1 h2
  have hw : w = st.writes := by
    rw [h2]
    rfl
  rw [hw] at h1
  intro p hp
  rw [h1]
  exact alGet_applyWrites_of_nodup _ _ hn p hp

/-- C6 witness: a successful run with distinct ids, where the logged write
for id x is indeed the final map entry. -/
theorem C6_write_once_witness :
    runSteps {} {} (fun _ => false)
      (fun k => { polls := 0, timedOut := false, result := ⟨0, toString k, "", 0⟩ }) []
      [Step.run (some "x") none false { program := .str "p" }] []
      { results := [], writes := [], consult := 0, spawn := 0 } =
      .ok { results := [("x", ⟨0, "0", "", 0⟩)], writes := [("x", ⟨0, "0", "", 0⟩)],
            consult := 3, spawn := 1 } ∧
    alGet [("x", (⟨0, "0", "", 0⟩ : StepResult))] "x" = some ⟨0, "0", "", 0⟩ := by
  have h : runSteps {} {} (fun _ => false)
      (fun k => { polls := 0, timedOut := false, result := ⟨0, toString k, "", 0⟩ }) []
      [Step.run (some "x") none false { program := .str "p" }] []
      { results := [], writes := [], consult := 0, spawn := 0 } =
      .ok { results := [("x", ⟨0, "0", "", 0⟩)], writes := [("x", ⟨0, "0", "", 0⟩)],
            consult := 3, spawn := 1 } := by
    simp [runSteps, runStepBody, runForeach, runCommand, renderedPrep, baseContext,
      resolveVarsLoop, mkCtxCore, checkCancel, pollChecks, evalWhen, stepWhen, stepIdOf,
      coeOf, renderTemplate, fullmatchTemplate, tryMatch, scanInner, subst, substGo,
      trimCh, pyWs, serializeArgv, resolveProgram, pyStr, pyRepr, alSet, alGet,
      pure, Except.pure, bind, Except.bind, Functor.map, Except.map,
      List.mapM, List.mapM.loop, List.foldlM]
    decide
  exact ⟨h, C6_write_once {} {} _ _ [] _ [] 0 0 _ h (by decide)
    ("x", ⟨0, "0", "", 0⟩) (by decide)⟩

/-- C7 counterexample: the action's only step sets continue_on_error; the
cancellation flag becomes set from the second consultation on (so it is
observed inside the step's poll loop, before the pipeline finishes), yet
run_action returns a plain successful result map: continue_on_error
converts the signalled cancellation into a success. -/
theorem C7_counterexample :
    runAction {} { actions := [("job",
        { pipeline := some [Step.run (some "slow") none true
          { program := .str "p" }] })] }
      (fun k => decide (1 ≤ k))
      (fun _ => { polls := 0, timedOut := false, result := ⟨0, "", "", 0⟩ }) "job" [] =
      .ok { results := [], writes := [], consult := 2, spawn := 1 } ∧
    (fun k => decide (1 ≤ k)) 1 = true ∧ 1 < 2 := by
  refine ⟨?_, by decide, by decide⟩
  simp [runAction, pipelineOf, runSteps, runStepBody, runForeach, runCommand,
    renderedPrep, baseContext, resolveVarsLoop, mkCtxCore, checkCancel, pollChecks,
    evalWhen, stepWhen, stepIdOf, coeOf, renderTemplate, fullmatchTemplate, tryMatch,
    scanInner, subst, substGo, trimCh, pyWs, serializeArgv, resolveProgram, pyStr,
    pyRepr, alSet, alGet, pure, Except.pure, bind, Except.bind, Functor.map,
    Except.map, List.mapM, List.mapM.loop, List.foldlM]

/-- C7 (amended): when no step of the selected pipeline sets
continue_on_error, a run_action invocation that returns a normal success
implies that every cancellation-flag consultation it made returned false -
equivalently, a cancellation signalled at any point the engine consults the
flag surfaces as an error (in the recovery-aware wrapper, optionally
intercepted by a declared on_error pipeline).  A step with
continue_on_error, however, catches the cancellation error like any other
error (engine.py line 381 lists ActionCancelledError in the caught tuple),
so it can convert a signalled cancellation into a successful result. -/
theorem C7_cancellation (sys : Sys) (cfg : Config) (cancel : Nat → Bool)
    (oracle : Nat → ProcSpec) (aid : String) (form : List (String × Value))
    (a : ActionDef) (pipeline : List Step) (st2 : RunState)
    (ha : alGet cfg.actions aid = some a)
    (hp : pipelineOf aid a = .ok pipeline)
    (hnc : noCoeSteps pipeline = true)
    (hok : runAction sys cfg cancel oracle aid form = .ok st2) :
    ∀ k, k < st2.consult → cancel k = false := by
  unfold runAction at hok
  simp only [ha] at hok
  simp only [hp] at hok
  intro k hk
  exact runSteps_ok_no_cancel sys cfg cancel oracle form pipeline [] _ hnc st2 hok k
    (Nat.zero_le k) hk

/-- C7 witness: a run with no continue_on_error whose success certifies the
flag was never observed set. -/
theorem C7_cancellation_witness :
    alGet [("job", ({ pipeline := some [Step.run (some "slow") none false
        { program := .str "p" }] } : ActionDef))] "job" = some
      { pipeline := some [Step.run (some "slow") none false { program := .str "p" }] } ∧
    runAction {} { actions := [("job",
        { pipeline := some [Step.run (some "slow") none false
          { program := .str "p" }] })] }
      (fun _ => false)
      (fun _ => { polls := 0, timedOut := false, result := ⟨0, "", "", 0⟩ }) "job" [] =
      .ok { results := [("slow", ⟨0, "", "", 0⟩)], writes := [("slow", ⟨0, "", "", 0⟩)],
            consult := 3, spawn := 1 } ∧
    (fun (_ : Nat) => false) 0 = false := by
  have h : runAction {} { actions := [("job",
        { pipeline := some [Step.run (some "slow") none false
          { program := .str "p" }] })] }
      (fun _ => false)
      (fun _ => { polls := 0, timedOut := false, result := ⟨0, "", "", 0⟩ }) "job" [] =
      .ok { results := [("slow", ⟨0, "", "", 0⟩)], writes := [("slow", ⟨0, "", "", 0⟩)],
            consult := 3, spawn := 1 } := by
    simp [runAction, pipelineOf, runSteps, runStepBody, runForeach, runCommand,
      renderedPrep, baseContext, resolveVarsLoop, mkCtxCore, checkCancel, pollChecks,
      evalWhen, stepWhen, stepIdOf, coeOf, renderTemplate, fullmatchTemplate, tryMatch,
      scanInner, subst, substGo, trimCh, pyWs, serializeArgv, resolveProgram, pyStr,
      pyRepr, alSet, alGet, pure, Except.pure, bind, Except.bind, Functor.map,
      Except.map, List.mapM, List.mapM.loop, List.foldlM]
  refine ⟨rfl, h, ?_⟩
  exact C7_cancellation {} { actions := [("job",
      { pipeline := some [Step.run (some "slow") none false
        { program := .str "p" }] })] }
    (fun _ => false)
    (fun _ => { polls := 0, timedOut := false, result := ⟨0, "", "", 0⟩ })
    "job" []
    { pipeline := some [Step.run (some "slow") none false
      { program := .str "p" }] }
    [Step.run (some "slow") none false { program := .str "p" }]
    { results := [("slow", ⟨0, "", "", 0⟩)], writes := [("slow", ⟨0, "", "", 0⟩)],
      consult := 3, spawn := 1 }
    rfl rfl rfl h 0 (by decide)

/-- C10: an action declaring a run shorthand and no pipeline executes as a
single-step pipeline whose synthesized step id is the action id suffixed
with _run, and a successful invocation records that step's StepResult under
exactly that key. -/
theorem C10_run_shorthand (sys : Sys) (cfg : Config) (cancel : Nat → Bool)
    (oracle : Nat → ProcSpec) (aid : String) (form : List (String × Value))
    (a : ActionDef) (r : RunSpec) (st2 : RunState)
    (ha : alGet cfg.actions aid = some a)
    (hp : a.pipeline = none) (hr : a.runSpec = some r)
    (hok : runAction sys cfg cancel oracle aid form = .ok st2) :
    pipelineOf aid a = .ok [Step.run (some (aid ++ "_run")) none false r] ∧
    ∃ res, alGet st2.results (aid ++ "_run") = some res := by
  have hpl : pipelineOf aid a = .ok [Step.run (some (aid ++ "_run")) none false r] := by
    simp [pipelineOf, hp, hr]
  refine ⟨hpl, ?_⟩
  unfold runAction at hok
  simp only [ha] at hok
  simp only [hpl] at hok
  simp only [runSteps, stepIdOf, Option.getD_some] at hok
  rcases hc : checkCancel cancel (aid ++ "_run")
      { results := [], writes := [], consult := 0, spawn := 0 } with e | st1 <;>
    rw [hc] at hok <;> simp only [] at hok
  · cases hok
  · rcases hbc : baseContext sys cfg form st1.results [] with msg | ctx <;>
      rw [hbc] at hok <;> simp only [] at hok
    · cases hok
    · rw [show evalWhen (Step.run (some (aid ++ "_run")) none false r)
          (safeEvalStr sys ctx) = .ok true from rfl] at hok
      simp only [] at hok
      rcases hsb : runStepBody sys cfg cancel oracle form
          (Step.run (some (aid ++ "_run")) none false r) (aid ++ "_run") [] ctx st1
        with ⟨e, stb⟩ | stb <;> rw [hsb] at hok <;> simp only [] at hok
      · cases hok
      · cases hok
        simp only [runStepBody] at hsb
        rcases hcmd : runCommand sys cfg cancel oracle (aid ++ "_run") r
            (safeEvalStr sys ctx) st1 with e | ⟨res, stc⟩ <;> rw [hcmd] at hsb <;>
          simp only [] at hsb
        · cases hsb
        · by_cases hexit : (res.exitCode ≠ 0 && !false) = true
          · rw [if_pos hexit] at hsb
            cases hsb
          · rw [if_neg hexit] at hsb
            cases hsb
            exact ⟨res, alGet_alSet_self _ _ _⟩

/-- C10 witness: a concrete shorthand action whose result map holds the
synthesized key. -/
theorem C10_run_shorthand_witness :
    alGet [("build", ({ runSpec := some { program := .str "make" } } : ActionDef))]
      "build" = some { runSpec := some { program := .str "make" } } ∧
    runAction {} { actions := [("build", { runSpec := some { program := .str "make" } })] }
      (fun _ => false)
      (fun _ => { polls := 0, timedOut := false, result := ⟨0, "ok", "", 5⟩ }) "build" [] =
      .ok { results := [("build_run", ⟨0, "ok", "", 5⟩)],
            writes := [("build_run", ⟨0, "ok", "", 5⟩)], consult := 3, spawn := 1 } ∧
    pipelineOf "build" { runSpec := some { program := .str "make" } } =
      .ok [Step.run (some ("build" ++ "_run")) none false { program := .str "make" }] ∧
    ∃ res, alGet [("build_run", (⟨0, "ok", "", 5⟩ : StepResult))]
      ("build" ++ "_run") = some res := by
  have h : runAction {} { actions :=
        [("build", { runSpec := some { program := .str "make" } })] }
      (fun _ => false)
      (fun _ => { polls := 0, timedOut := false, result := ⟨0, "ok", "", 5⟩ }) "build" [] =
      .ok { results := [("build_run", ⟨0, "ok", "", 5⟩)],
            writes := [("build_run", ⟨0, "ok", "", 5⟩)], consult := 3, spawn := 1 } := by
    simp [runAction, pipelineOf, runSteps, runStepBody, runForeach, runCommand,
      renderedPrep, baseContext, resolveVarsLoop, mkCtxCore, checkCancel, pollChecks,
      evalWhen, stepWhen, stepIdOf, coeOf, renderTemplate, fullmatchTemplate, tryMatch,
      scanInner, subst, substGo, trimCh, pyWs, serializeArgv, resolveProgram, pyStr,
      pyRepr, alSet, alGet, pure, Except.pure, bind, Except.bind, Functor.map,
      Except.map, List.mapM, List.mapM.loop, List.foldlM]
  obtain ⟨h1, h2⟩ := C10_run_shorthand {}
    { actions := [("build", { runSpec := some { program := .str "make" } })] }
    (fun _ => false)
    (fun _ => { polls := 0, timedOut := false, result := ⟨0, "ok", "", 5⟩ })
    "build" []
    { runSpec := some { program := .str "make" } }
    { program := .str "make" }
    { results := [("build_run", ⟨0, "ok", "", 5⟩)],
      writes := [("build_run", ⟨0, "ok", "", 5⟩)], consult := 3, spawn := 1 }
    rfl rfl rfl h
  exact ⟨rfl, h, h1, h2⟩

theorem alGet_mem {α : Type} (d : List (String × α)) (k : String) (v : α)
    (h : alGet d k = some v) : (k, v) ∈ d := by
  induction d with
  | nil => simp [alGet] at h
  | cons p rest ih =>
    obtain ⟨k1, w⟩ := p
    simp only [alGet] at h
    split at h
    · cases h
      simp_all
    · exact List.mem_cons_of_mem _ (ih h)

theorem recoveryKey_injective : Function.Injective recoveryKey := by
  intro a b h
  simp only [recoveryKey] at h
  apply String.ext
  have := congrArg String.data h
  simpa [String.data_append] using this

/-- C1 (spec-modelled): when the primary pipeline fails uncaught and the
declared on_error pipeline then succeeds, the recovery-aware run_action
returns (rather than raises) a result whose _meta.status is recovered,
whose _meta.error carries the failing step's id together with the error
kind and message, and whose step map holds every recovery step's
StepResult under its _recovery.-namespaced id (apart from the primary
ids), the partial primary results staying in place. -/
theorem C1_recovery_success (sys : Sys) (cfg : Config) (cancel : Nat → Bool)
    (oracle : Nat → ProcSpec) (aid : String) (form : List (String × Value))
    (a : ActionDef) (recSteps pipeline : List Step) (e : RunError) (st rst : RunState)
    (ha : alGet cfg.actions aid = some a)
    (hoe : a.onError = some recSteps)
    (hp : pipelineOf aid a = .ok pipeline)
    (hfail : runSteps sys cfg cancel oracle form pipeline [] {} = .error (e, st))
    (hrec : runSteps sys cfg cancel oracle form recSteps
      [("error", Value.map [("step_id", .str (errCtxOf e).stepId),
        ("type", .str (errCtxOf e).kind), ("message", .str (errCtxOf e).message)])]
      { consult := st.consult, spawn := st.spawn } = .ok rst) :
    ∃ stepsMap,
      runActionRecovered sys cfg cancel oracle aid form =
        .ok ⟨stepsMap, ⟨"recovered", some (errCtxOf e)⟩⟩ ∧
      ∀ k r, alGet rst.results k = some r → alGet stepsMap (recoveryKey k) = some r := by
  have hout : runActionRecovered sys cfg cancel oracle aid form =
      .ok ⟨(rst.results.map (fun p => (recoveryKey p.1, p.2))).foldl
          (fun acc p => alSet acc p.1 p.2) st.results,
        ⟨"recovered", some (errCtxOf e)⟩⟩ := by
    unfold runActionRecovered
    simp only [ha]
    simp only [hp]
    simp only [hfail]
    simp only [hoe]
    simp only [hrec]
  refine ⟨_, hout, ?_⟩
  have hevo := runSteps_stateEvolves sys cfg cancel oracle form recSteps
    [("error", Value.map [("step_id", .str (errCtxOf e).stepId),
      ("type", .str (errCtxOf e).kind), ("message", .str (errCtxOf e).message)])]
    { consult := st.consult, spawn := st.spawn }
  rw [hrec] at hevo
  obtain ⟨w, h1, h2, -, -⟩ := hevo
  simp only [outSt] at h1 h2
  have hnd : keysNodup rst.results := by
    rw [h1]
    exact keysNodup_applyWrites _ _ (by simp [keysNodup])
  intro k r hkr
  have hmem : (k, r) ∈ rst.results := alGet_mem _ _ _ hkr
  have hmem2 : (recoveryKey k, r) ∈ rst.results.map (fun p => (recoveryKey p.1, p.2)) :=
    List.mem_map.mpr ⟨(k, r), hmem, rfl⟩
  have hnd2 : ((rst.results.map (fun p => (recoveryKey p.1, p.2))).map Prod.fst).Nodup := by
    have hmaps : (rst.results.map (fun p => (recoveryKey p.1, p.2))).map Prod.fst =
        (rst.results.map Prod.fst).map recoveryKey := by
      simp [List.map_map]
    rw [hmaps]
    exact List.Nodup.map recoveryKey_injective hnd
  exact alGet_applyWrites_of_nodup st.results _ hnd2 (recoveryKey k, r) hmem2

/-- C2 (spec-modelled): when the primary pipeline fails uncaught and the
declared on_error pipeline then also fails, the recovery-aware run_action
raises a single combined recovery error carrying both the primary failure
context and the recovery failure context (step id, kind and message for
each), dropping neither. -/
theorem C2_recovery_failure (sys : Sys) (cfg : Config) (cancel : Nat → Bool)
    (oracle : Nat → ProcSpec) (aid : String) (form : List (String × Value))
    (a : ActionDef) (recSteps pipeline : List Step) (e e2 : RunError) (st rst : RunState)
    (ha : alGet cfg.actions aid = some a)
    (hoe : a.onError = some recSteps)
    (hp : pipelineOf aid a = .ok pipeline)
    (hfail : runSteps sys cfg cancel oracle form pipeline [] {} = .error (e, st))
    (hrec : runSteps sys cfg cancel oracle form recSteps
      [("error", Value.map [("step_id", .str (errCtxOf e).stepId),
        ("type", .str (errCtxOf e).kind), ("message", .str (errCtxOf e).message)])]
      { consult := st.consult, spawn := st.spawn } = .error (e2, rst)) :
    runActionRecovered sys cfg cancel oracle aid form =
      .error (.recovery (errCtxOf e)
        { errCtxOf e2 with stepId := recoveryKey (errCtxOf e2).stepId }) := by
  unfold runActionRecovered
  simp only [ha]
  simp only [hp]
  simp only [hfail]
  simp only [hoe]
  simp only [hrec]

/-- C1 witness: scenario C - the primary step main exits 2, the recovery
step cleanup succeeds; the returned map is recovered with both results. -/
theorem C1_recovery_success_witness :
    runSteps {} { actions := [("job",
        { pipeline := some [Step.run (some "main") none false { program := .str "p" }],
          onError := some [Step.run (some "cleanup") none false
            { program := .str "q" }] })] }
      (fun _ => false)
      (fun k => if k = 0 then { polls := 0, timedOut := false, result := ⟨2, "", "", 0⟩ }
        else { polls := 0, timedOut := false, result := ⟨0, "", "", 0⟩ })
      [] [Step.run (some "main") none false { program := .str "p" }] [] {} =
      .error (.processExit "main" 2,
        { results := [("main", ⟨2, "", "", 0⟩)], writes := [("main", ⟨2, "", "", 0⟩)],
          consult := 3, spawn := 1 }) ∧
    runActionRecovered {} { actions := [("job",
        { pipeline := some [Step.run (some "main") none false { program := .str "p" }],
          onError := some [Step.run (some "cleanup") none false
            { program := .str "q" }] })] }
      (fun _ => false)
      (fun k => if k = 0 then { polls := 0, timedOut := false, result := ⟨2, "", "", 0⟩ }
        else { polls := 0, timedOut := false, result := ⟨0, "", "", 0⟩ }) "job" [] =
      .ok ⟨[("main", ⟨2, "", "", 0⟩), ("_recovery.cleanup", ⟨0, "", "", 0⟩)],
        ⟨"recovered", some ⟨"main", "process_exit",
          "Step main failed with exit code 2"⟩⟩⟩ ∧
    alGet [("main", (⟨2, "", "", 0⟩ : StepResult)),
      ("_recovery.cleanup", (⟨0, "", "", 0⟩ : StepResult))] (recoveryKey "cleanup") =
      some ⟨0, "", "", 0⟩ := by
  have h1 : runSteps {} { actions := [("job",
        { pipeline := some [Step.run (some "main") none false { program := .str "p" }],
          onError := some [Step.run (some "cleanup") none false
            { program := .str "q" }] })] }
      (fun _ => false)
      (fun k => if k = 0 then { polls := 0, timedOut := false, result := ⟨2, "", "", 0⟩ }
        else { polls := 0, timedOut := false, result := ⟨0, "", "", 0⟩ })
      [] [Step.run (some "main") none false { program := .str "p" }] [] {} =
      .error (.processExit "main" 2,
        { results := [("main", ⟨2, "", "", 0⟩)], writes := [("main", ⟨2, "", "", 0⟩)],
          consult := 3, spawn := 1 }) := by
    simp [runSteps, runStepBody, runForeach, runCommand, renderedPrep, baseContext,
      resolveVarsLoop, mkCtxCore, checkCancel, pollChecks, evalWhen, stepWhen, stepIdOf,
      coeOf, renderTemplate, fullmatchTemplate, tryMatch, scanInner, subst, substGo,
      trimCh, pyWs, serializeArgv, resolveProgram, pyStr, pyRepr, alSet, alGet,
      pure, Except.pure, bind, Except.bind, Functor.map, Except.map,
      List.mapM, List.mapM.loop, List.foldlM]
  have h2 : runSteps {} { actions := [("job",
        { pipeline := some [Step.run (some "main") none false { program := .str "p" }],
          onError := some [Step.run (some "cleanup") none false
            { program := .str "q" }] })] }
      (fun _ => false)
      (fun k => if k = 0 then { polls := 0, timedOut := false, result := ⟨2, "", "", 0⟩ }
        else { polls := 0, timedOut := false, result := ⟨0, "", "", 0⟩ })
      [] [Step.run (some "cleanup") none false { program := .str "q" }]
      [("error", Value.map [("step_id",
          .str (errCtxOf (.processExit "main" 2)).stepId),
        ("type", .str (errCtxOf (.processExit "main" 2)).kind),
        ("message", .str (errCtxOf (.processExit "main" 2)).message)])]
      { consult := 3, spawn := 1 } =
      .ok
        { results := [("cleanup", ⟨0, "", "", 0⟩)],
          writes := [("cleanup", ⟨0, "", "", 0⟩)], consult := 6, spawn := 2 } := by
    simp [runSteps, runStepBody, runForeach, runCommand, renderedPrep, baseContext,
      resolveVarsLoop, mkCtxCore, checkCancel, pollChecks, evalWhen, stepWhen, stepIdOf,
      coeOf, renderTemplate, fullmatchTemplate, tryMatch, scanInner, subst, substGo,
      trimCh, pyWs, serializeArgv, resolveProgram, pyStr, pyRepr, alSet, alGet,
      errCtxOf, pure, Except.pure, bind, Except.bind, Functor.map, Except.map,
      List.mapM, List.mapM.loop, List.foldlM]
  obtain ⟨sm, hsm, hlk⟩ := C1_recovery_success {}
    { actions := [("job",
        { pipeline := some [Step.run (some "main") none false { program := .str "p" }],
          onError := some [Step.run (some "cleanup") none false
            { program := .str "q" }] })] }
    (fun _ => false)
    (fun k => if k = 0 then { polls := 0, timedOut := false, result := ⟨2, "", "", 0⟩ }
      else { polls := 0, timedOut := false, result := ⟨0, "", "", 0⟩ })
    "job" []
    { pipeline := some [Step.run (some "main") none false { program := .str "p" }],
      onError := some [Step.run (some "cleanup") none false { program := .str "q" }] }
    [Step.run (some "cleanup") none false { program := .str "q" }]
    [Step.run (some "main") none false { program := .str "p" }]
    (.processExit "main" 2)
    { results := [("main", ⟨2, "", "", 0⟩)], writes := [("main", ⟨2, "", "", 0⟩)],
      consult := 3, spawn := 1 }
    { results := [("cleanup", ⟨0, "", "", 0⟩)], writes := [("cleanup", ⟨0, "", "", 0⟩)],
      consult := 6, spawn := 2 }
    rfl rfl (by simp [pipelineOf]) h1 h2
  have h3 : runActionRecovered {} { actions := [("job",
        { pipeline := some [Step.run (some "main") none false { program := .str "p" }],
          onError := some [Step.run (some "cleanup") none false
            { program := .str "q" }] })] }
      (fun _ => false)
      (fun k => if k = 0 then { polls := 0, timedOut := false, result := ⟨2, "", "", 0⟩ }
        else { polls := 0, timedOut := false, result := ⟨0, "", "", 0⟩ }) "job" [] =
      .ok ⟨[("main", ⟨2, "", "", 0⟩), ("_recovery.cleanup", ⟨0, "", "", 0⟩)],
        ⟨"recovered", some ⟨"main", "process_exit",
          "Step main failed with exit code 2"⟩⟩⟩ := by
    simp [runActionRecovered, pipelineOf, recoveryKey, errCtxOf, runSteps,
      runStepBody, runForeach, runCommand, renderedPrep, baseContext,
      resolveVarsLoop, mkCtxCore, checkCancel, pollChecks, evalWhen, stepWhen,
      stepIdOf, coeOf, renderTemplate, fullmatchTemplate, tryMatch, scanInner,
      subst, substGo, trimCh, pyWs, serializeArgv, resolveProgram, pyStr, pyRepr,
      alSet, alGet, pure, Except.pure, bind, Except.bind, Functor.map, Except.map,
      List.mapM, List.mapM.loop, List.foldlM]
    decide
  refine ⟨h1, h3, ?_⟩
  have hse : sm = [("main", ⟨2, "", "", 0⟩), ("_recovery.cleanup", ⟨0, "", "", 0⟩)] := by
    have := hsm.symm.trans h3
    have h4 := Except.ok.inj this
    exact congrArg RunOutcome.steps h4
  rw [← hse]
  exact hlk "cleanup" ⟨0, "", "", 0⟩ (by decide)

/-- C2 witness: scenario D - the primary step main exits 5 and the recovery
step cleanup exits 7; the combined error carries both contexts. -/
theorem C2_recovery_failure_witness :
    runSteps {} { actions := [("job",
        { pipeline := some [Step.run (some "main") none false { program := .str "p" }],
          onError := some [Step.run (some "cleanup") none false
            { program := .str "q" }] })] }
      (fun _ => false)
      (fun k => if k = 0 then { polls := 0, timedOut := false, result := ⟨5, "", "", 0⟩ }
        else { polls := 0, timedOut := false, result := ⟨7, "", "", 0⟩ })
      [] [Step.run (some "main") none false { program := .str "p" }] [] {} =
      .error (.processExit "main" 5,
        { results := [("main", ⟨5, "", "", 0⟩)], writes := [("main", ⟨5, "", "", 0⟩)],
          consult := 3, spawn := 1 }) ∧
    runActionRecovered {} { actions := [("job",
        { pipeline := some [Step.run (some "main") none false { program := .str "p" }],
          onError := some [Step.run (some "cleanup") none false
            { program := .str "q" }] })] }
      (fun _ => false)
      (fun k => if k = 0 then { polls := 0, timedOut := false, result := ⟨5, "", "", 0⟩ }
        else { polls := 0, timedOut := false, result := ⟨7, "", "", 0⟩ }) "job" [] =
      .error (.recovery ⟨"main", "process_exit", "Step main failed with exit code 5"⟩
        ⟨"_recovery.cleanup", "process_exit",
          "Step cleanup failed with exit code 7"⟩) := by
  have h1 : runSteps {} { actions := [("job",
        { pipeline := some [Step.run (some "main") none false { program := .str "p" }],
          onError := some [Step.run (some "cleanup") none false
            { program := .str "q" }] })] }
      (fun _ => false)
      (fun k => if k = 0 then { polls := 0, timedOut := false, result := ⟨5, "", "", 0⟩ }
        else { polls := 0, timedOut := false, result := ⟨7, "", "", 0⟩ })
      [] [Step.run (some "main") none false { program := .str "p" }] [] {} =
      .error (.processExit "main" 5,
        { results := [("main", ⟨5, "", "", 0⟩)], writes := [("main", ⟨5, "", "", 0⟩)],
          consult := 3, spawn := 1 }) := by
    simp [runSteps, runStepBody, runForeach, runCommand, renderedPrep, baseContext,
      resolveVarsLoop, mkCtxCore, checkCancel, pollChecks, evalWhen, stepWhen, stepIdOf,
      coeOf, renderTemplate, fullmatchTemplate, tryMatch, scanInner, subst, substGo,
      trimCh, pyWs, serializeArgv, resolveProgram, pyStr, pyRepr, alSet, alGet,
      pure, Except.pure, bind, Except.bind, Functor.map, Except.map,
      List.mapM, List.mapM.loop, List.foldlM]
  have h2 : runSteps {} { actions := [("job",
        { pipeline := some [Step.run (some "main") none false { program := .str "p" }],
          onError := some [Step.run (some "cleanup") none false
            { program := .str "q" }] })] }
      (fun _ => false)
      (fun k => if k = 0 then { polls := 0, timedOut := false, result := ⟨5, "", "", 0⟩ }
        else { polls := 0, timedOut := false, result := ⟨7, "", "", 0⟩ })
      [] [Step.run (some "cleanup") none false { program := .str "q" }]
      [("error", Value.map [("step_id",
          .str (errCtxOf (.processExit "main" 5)).stepId),
        ("type", .str (errCtxOf (.processExit "main" 5)).kind),
        ("message", .str (errCtxOf (.processExit "main" 5)).message)])]
      { consult := 3, spawn := 1 } =
      .error (.processExit "cleanup" 7,
        { results := [("cleanup", ⟨7, "", "", 0⟩)],
          writes := [("cleanup", ⟨7, "", "", 0⟩)], consult := 6, spawn := 2 }) := by
    simp [runSteps, runStepBody, runForeach, runCommand, renderedPrep, baseContext,
      resolveVarsLoop, mkCtxCore, checkCancel, pollChecks, evalWhen, stepWhen, stepIdOf,
      coeOf, renderTemplate, fullmatchTemplate, tryMatch, scanInner, subst, substGo,
      trimCh, pyWs, serializeArgv, resolveProgram, pyStr, pyRepr, alSet, alGet,
      errCtxOf, pure, Except.pure, bind, Except.bind, Functor.map, Except.map,
      List.mapM, List.mapM.loop, List.foldlM]
  have h3 := C2_recovery_failure {}
    { actions := [("job",
        { pipeline := some [Step.run (some "main") none false { program := .str "p" }],
          onError := some [Step.run (some "cleanup") none false
            { program := .str "q" }] })] }
    (fun _ => false)
    (fun k => if k = 0 then { polls := 0, timedOut := false, result := ⟨5, "", "", 0⟩ }
      else { polls := 0, timedOut := false, result := ⟨7, "", "", 0⟩ })
    "job" []
    { pipeline := some [Step.run (some "main") none false { program := .str "p" }],
      onError := some [Step.run (some "cleanup") none false { program := .str "q" }] }
    [Step.run (some "cleanup") none false { program := .str "q" }]
    [Step.run (some "main") none false { program := .str "p" }]
    (.processExit "main" 5) (.processExit "cleanup" 7)
    { results := [("main", ⟨5, "", "", 0⟩)], writes := [("main", ⟨5, "", "", 0⟩)],
      consult := 3, spawn := 1 }
    { results := [("cleanup", ⟨7, "", "", 0⟩)], writes := [("cleanup", ⟨7, "", "", 0⟩)],
      consult := 6, spawn := 2 }
    rfl rfl (by simp [pipelineOf]) h1 h2
  exact ⟨h1, h3⟩

/-- C5 witness: the amended characterization applied to a one-var config. -/
theorem C5_vars_resolution_witness :
    keysNodup [("a", Value.str "hi")] ∧
    resolveVarsLoop {} [] [("a", Value.str "hi")] =
      [("a", Value.str "hi")].mapM (fun p => do
        pure (p.1, ← renderTemplate p.2 (safeEvalStr {} []))) :=
  ⟨by decide, (C5_vars_resolution {} [] [("a", Value.str "hi")] (by decide)).1⟩

/-- The claim's premise, transcribed: the text contains an opening
placeholder delimiter that no closing brace ever follows. -/
def hasUntermB : List Char → Bool
  | a :: b :: rest =>
    (a = '$' && b = lbrace && !(rest.contains rbrace)) || hasUntermB (b :: rest)
  | _ => false

theorem hasUntermB_two {l : List Char} (h : hasUntermB l = true) :
    ∃ a b rest, l = a :: b :: rest := by
  match l with
  | [] => simp [hasUntermB] at h
  | [a] => simp [hasUntermB] at h
  | a :: b :: rest => exact ⟨a, b, rest, rfl⟩

theorem hasUntermB_append_left (a : List Char) {b : List Char}
    (h : hasUntermB b = true) : hasUntermB (a ++ b) = true := by
  induction a with
  | nil => simpa using h
  | cons x a' ih =>
    obtain ⟨y, z, t, hb⟩ := hasUntermB_two ih
    have h2 : hasUntermB (y :: z :: t) = true := hb ▸ ih
    rw [List.cons_append, hb]
    show (_ || hasUntermB (y :: z :: t)) = true
    rw [h2, Bool.or_true]

theorem tryMatch_shape {l inner rest : List Char}
    (h : tryMatch l = some (inner, rest)) :
    l = '$' :: lbrace :: (inner ++ rbrace :: rest) ∧
      inner.all braceFreeChar ∧ inner ≠ [] := by
  match l with
  | [] => simp [tryMatch] at h
  | [a] => simp [tryMatch] at h
  | a :: b :: t =>
    simp only [tryMatch] at h
    split at h
    case isTrue hab =>
      rcases hs : scanInner t with - | ⟨inner1, tail1⟩
      · simp [hs] at h
      · rcases hi : inner1.isEmpty with - | -
        · simp [hs, hi] at h
          obtain ⟨hshape, hfree⟩ := scanInner_shape hs
          simp only [Bool.and_eq_true, decide_eq_true_eq] at hab
          obtain ⟨h1, h2⟩ := h
          subst h1
          subst h2
          refine ⟨by rw [hab.1, hab.2, hshape], hfree, ?_⟩
          intro hx
          rw [hx] at hi
          simp at hi
        · simp [hs, hi] at h
    case isFalse => simp at h

theorem scanInner_none_of_no_rbrace {l : List Char} (h : rbrace ∉ l) :
    scanInner l = none := by
  induction l with
  | nil => rfl
  | cons c cs ih =>
    simp only [List.mem_cons] at h
    push_neg at h
    simp only [scanInner]
    rw [if_neg (fun hh => h.1 hh.symm), ih h.2]
    split <;> rfl

theorem substGo_no_rbrace (ev : String → Except String Value) :
    ∀ (fuel : Nat) (l : List Char), rbrace ∉ l → substGo ev fuel l = .ok l := by
  intro fuel
  induction fuel with
  | zero => intro l h; cases l <;> rfl
  | succ f ih =>
    intro l h
    match l with
    | [] => rfl
    | c :: cs =>
      have hnone : tryMatch (c :: cs) = none := by
        rcases hm : tryMatch (c :: cs) with - | ⟨inner, rest⟩
        · rfl
        · obtain ⟨hshape, -, -⟩ := tryMatch_shape hm
          have hin : rbrace ∈ c :: cs := by
            rw [hshape]
            simp
          exact absurd hin h
      simp only [substGo, hnone]
      have : rbrace ∉ cs := fun hh => h (List.mem_cons_of_mem _ hh)
      rw [ih cs this]
      rfl

theorem hasUntermB_cons2 (a b : Char) (r : List Char) :
    hasUntermB (a :: b :: r) =
      ((decide (a = '$') && decide (b = lbrace) && !(r.contains rbrace)) ||
        hasUntermB (b :: r)) := rfl

theorem unterm_split_at_rb : ∀ (x after : List Char),
    hasUntermB (x ++ rbrace :: after) = true → hasUntermB after = true := by
  intro x
  induction x with
  | nil =>
    intro after h
    rcases after with - | ⟨y, ys⟩
    · simp [hasUntermB] at h
    · rw [List.nil_append, hasUntermB_cons2, Bool.or_eq_true] at h
      rcases h with h1 | h1
      · rw [Bool.and_eq_true, Bool.and_eq_true] at h1
        exact absurd (of_decide_eq_true h1.1.1) (by decide)
      · exact h1
  | cons c x' ih =>
    intro after h
    rw [List.cons_append] at h
    rcases hx : x' ++ rbrace :: after with - | ⟨d, ds⟩
    · rcases x' with - | ⟨u, us⟩ <;> simp at hx
    · rw [hx, hasUntermB_cons2, Bool.or_eq_true] at h
      rcases h with h1 | h1
      · rw [Bool.and_eq_true, Bool.and_eq_true, Bool.not_eq_true'] at h1
        have hmem : rbrace ∈ d :: ds := by
          rw [← hx]
          simp
        rcases List.mem_cons.mp hmem with he | he
        · rw [of_decide_eq_true h1.1.2] at he
          exact absurd he (by decide)
        · have hcon : ds.contains rbrace = true := List.elem_iff.mpr he
          exact Bool.noConfusion (hcon.symm.trans h1.2)
      · rw [← hx] at h1
        exact ih after h1

theorem substGo_preserves_unterm (ev : String → Except String Value) :
    ∀ (fuel : Nat) (l out : List Char), l.length ≤ fuel →
    hasUntermB l = true → substGo ev fuel l = .ok out →
    hasUntermB out = true := by
  intro fuel
  induction fuel with
  | zero =>
    intro l out hlen hu h
    have : l = [] := List.eq_nil_of_length_eq_zero (Nat.le_zero.mp hlen)
    subst this
    simp [hasUntermB] at hu
  | succ f ih =>
    intro l out hlen hu h
    obtain ⟨a, b, tcs, hl⟩ := hasUntermB_two hu
    subst hl
    rcases hm : tryMatch (a :: b :: tcs) with - | ⟨inner, rest⟩
    · have hcs2 : hasUntermB (b :: tcs) = true ∨
          (a = '$' ∧ b = lbrace ∧ rbrace ∉ tcs) := by
        rw [hasUntermB_cons2, Bool.or_eq_true] at hu
        rcases hu with h1 | h1
        · right
          rw [Bool.and_eq_true, Bool.and_eq_true, Bool.not_eq_true'] at h1
          refine ⟨of_decide_eq_true h1.1.1, of_decide_eq_true h1.1.2, ?_⟩
          intro hmem
          have hcon : tcs.contains rbrace = true := List.elem_iff.mpr hmem
          exact Bool.noConfusion (hcon.symm.trans h1.2)
        · exact Or.inl h1
      simp only [substGo, hm] at h
      rcases hs : substGo ev f (b :: tcs) with e | tail
      · rw [hs] at h; exact absurd h (by simp [Except.bind])
      · rw [hs] at h
        simp only [bind, Except.bind, pure, Except.pure, Except.ok.injEq] at h
        rcases hcs2 with hcs | ⟨ha, hb, hnr⟩
        · have htail : hasUntermB tail = true :=
            ih (b :: tcs) tail (by simpa using Nat.le_of_succ_le_succ hlen) hcs hs
          rw [← h]
          exact hasUntermB_append_left [a] htail
        · have hnr2 : rbrace ∉ b :: tcs := by
            intro hx
            rcases List.mem_cons.mp hx with hx | hx
            · rw [hb] at hx; exact absurd hx.symm (by decide)
            · exact hnr hx
          have := substGo_no_rbrace ev f (b :: tcs) hnr2
          rw [this] at hs
          have htail : tail = b :: tcs := by
            simpa using hs.symm
          rw [← h, htail]
          exact hu
    · obtain ⟨hshape, -, -⟩ := tryMatch_shape hm
      have hrest : hasUntermB rest = true := by
        have : hasUntermB (('$' :: lbrace :: inner) ++ rbrace :: rest) = true := by
          rw [List.cons_append, List.cons_append]
          exact hshape ▸ hu
        exact unterm_split_at_rb _ _ this
      have hrlen : rest.length ≤ f := by
        have := tryMatch_rest_length hm
        omega
      simp only [substGo, hm] at h
      rcases he : ev (String.mk (trimCh inner)) with e | v
      · rw [he] at h; exact absurd h (by simp [bind, Except.bind])
      · rw [he] at h
        simp only [bind, Except.bind] at h
        rcases hs : substGo ev f rest with e | tail
        · rw [hs] at h; exact absurd h (by simp [bind, Except.bind])
        · rw [hs] at h
          simp only [bind, Except.bind, pure, Except.pure, Except.ok.injEq] at h
          have htail : hasUntermB tail = true := ih rest tail hrlen hrest hs
          rw [← h]
          exact hasUntermB_append_left _ htail

theorem ws_prefix_unterm : ∀ (a rest : List Char), (∀ c ∈ a, pyWs c = true) →
    hasUntermB (a ++ rest) = true → hasUntermB rest = true := by
  intro a
  induction a with
  | nil => intro rest _ h; simpa using h
  | cons x a' ih =>
    intro rest hws h
    rw [List.cons_append] at h
    have hx : pyWs x = true := hws x (by simp)
    have hxne : ¬(x = '$') := by
      intro hh
      rw [hh] at hx
      exact absurd hx (by decide)
    rcases heq : a' ++ rest with - | ⟨u, us⟩
    · rw [heq] at h
      simp [hasUntermB] at h
    · rw [heq, hasUntermB_cons2, Bool.or_eq_true] at h
      rcases h with h1 | h1
      · rw [Bool.and_eq_true, Bool.and_eq_true] at h1
        exact absurd (of_decide_eq_true h1.1.1) hxne
      · rw [← heq] at h1
        exact ih rest (fun c hc => hws c (List.mem_cons_of_mem _ hc)) h1

theorem allWs_no_unterm {w : List Char} (hws : ∀ c ∈ w, pyWs c = true) :
    hasUntermB w = false := by
  by_contra h
  rw [Bool.not_eq_false] at h
  have : hasUntermB ([] : List Char) = true := by
    have := ws_prefix_unterm w [] hws (by simpa using h)
    exact this
  simp [hasUntermB] at this

theorem trim_decomp (l : List Char) :
    ∃ w1 w2, l = w1 ++ trimCh l ++ w2 ∧
      (∀ c ∈ w1, pyWs c = true) ∧ (∀ c ∈ w2, pyWs c = true) := by
  refine ⟨l.takeWhile pyWs, ((l.dropWhile pyWs).reverse.takeWhile pyWs).reverse,
    ?_, ?_, ?_⟩
  · conv_lhs => rw [← List.takeWhile_append_dropWhile (p := pyWs) (l := l)]
    rw [List.append_assoc]
    congr 1
    conv_lhs => rw [← List.reverse_reverse (l.dropWhile pyWs),
      ← List.takeWhile_append_dropWhile (p := pyWs)
        (l := (l.dropWhile pyWs).reverse)]
    rw [List.reverse_append, trimCh]
  · intro c hc
    exact List.mem_takeWhile_imp hc
  · intro c hc
    rw [List.mem_reverse] at hc
    exact List.mem_takeWhile_imp hc

theorem fullmatch_none_of_unterm {l : List Char} (hu : hasUntermB l = true) :
    fullmatchTemplate (trimCh l) = none := by
  rcases hf : fullmatchTemplate (trimCh l) with - | inner
  · rfl
  · exfalso
    have htm : tryMatch (trimCh l) = some (inner, []) := by
      simp only [fullmatchTemplate] at hf
      rcases h2 : tryMatch (trimCh l) with - | ⟨i2, r2⟩
      · rw [h2] at hf; simp at hf
      · rw [h2] at hf
        rcases r2 with - | ⟨x, xs⟩
        · simp at hf; rw [hf]
        · simp at hf
    obtain ⟨hshape, -, -⟩ := tryMatch_shape htm
    obtain ⟨w1, w2, hdec, hws1, hws2⟩ := trim_decomp l
    have h1 : hasUntermB (trimCh l ++ w2) = true := by
      apply ws_prefix_unterm w1 _ hws1
      rw [← List.append_assoc, ← hdec]
      exact hu
    have h2 : hasUntermB w2 = true := by
      apply unterm_split_at_rb ('$' :: lbrace :: inner) w2
      have : trimCh l ++ w2 = ('$' :: lbrace :: inner) ++ rbrace :: w2 := by
        rw [hshape]
        simp
      rw [← this]
      exact h1
    exact absurd h2 (by simp [allWs_no_unterm hws2])

theorem findPh_shape : ∀ {l pre post : List Char},
    findPh l = some (pre, post) → l = pre ++ '$' :: lbrace :: post := by
  intro l
  induction l with
  | nil => intro pre post h; simp [findPh] at h
  | cons a t ih =>
    intro pre post h
    rcases t with - | ⟨b, rest⟩
    · simp [findPh] at h
    · simp only [findPh] at h
      split at h
      case isTrue hab =>
        simp only [Bool.and_eq_true, decide_eq_true_eq] at hab
        simp only [Option.some.injEq, Prod.mk.injEq] at h
        rw [← h.1, ← h.2, hab.1, hab.2]
        rfl
      case isFalse =>
        rcases hr : findPh (b :: rest) with - | ⟨pr, po⟩
        · rw [hr] at h; simp at h
        · rw [hr] at h
          simp only [Option.some.injEq, Prod.mk.injEq] at h
          rw [← h.1, ← h.2]
          rw [List.cons_append]
          exact congrArg (a :: ·) (ih hr)

theorem findPh_of_unterm : ∀ {l : List Char}, hasUntermB l = true →
    ∃ pre post, findPh l = some (pre, post) := by
  intro l
  induction l with
  | nil => intro h; simp [hasUntermB] at h
  | cons a t ih =>
    intro h
    rcases t with - | ⟨b, rest⟩
    · simp [hasUntermB] at h
    · by_cases hab : (a = '$' && b = lbrace) = true
      · exact ⟨[], rest, by simp [findPh, hab]⟩
      · have h2 : hasUntermB (b :: rest) = true := by
          rw [hasUntermB_cons2, Bool.or_eq_true] at h
          rcases h with h | h
          · exact absurd (by
              rw [Bool.and_eq_true, Bool.and_eq_true] at h
              rw [Bool.and_eq_true]
              exact ⟨h.1.1, h.1.2⟩) hab
          · exact h
        obtain ⟨pr, po, hf⟩ := ih h2
        exact ⟨a :: pr, po, by simp [findPh, hab, hf]⟩

theorem splitAtBrace_shape : ∀ {l pre post : List Char},
    splitAtBrace l = some (pre, post) → l = pre ++ rbrace :: post := by
  intro l
  induction l with
  | nil => intro pre post h; simp [splitAtBrace] at h
  | cons c t ih =>
    intro pre post h
    simp only [splitAtBrace] at h
    split at h
    case isTrue hc =>
      simp only [Option.some.injEq, Prod.mk.injEq] at h
      rw [← h.1, ← h.2, hc]
      rfl
    case isFalse =>
      rcases hr : splitAtBrace t with - | ⟨pr, po⟩
      · rw [hr] at h; simp at h
      · rw [hr] at h
        simp only [Option.some.injEq, Prod.mk.injEq] at h
        rw [← h.1, ← h.2, List.cons_append]
        exact congrArg (c :: ·) (ih hr)

theorem exprRenderLoop_not_ok (ev : String → Except String Value) :
    ∀ (fuel : Nat) (out : List Char), hasUntermB out = true →
    ∀ res, exprRenderLoop ev fuel out ≠ .ok res := by
  intro fuel
  induction fuel with
  | zero => intro out _ res h; simp [exprRenderLoop] at h
  | succ f ih =>
    intro out hu res h
    obtain ⟨pre, rest, hf⟩ := findPh_of_unterm hu
    simp only [exprRenderLoop, hf] at h
    rcases hs : splitAtBrace rest with - | ⟨expr, after⟩
    · rw [hs] at h; simp at h
    · rw [hs] at h
      simp only [] at h
      have hafter : hasUntermB after = true := by
        apply unterm_split_at_rb (pre ++ '$' :: lbrace :: expr) after
        rw [List.append_assoc]
        have : '$' :: lbrace :: expr ++ rbrace :: after =
            '$' :: lbrace :: rest := by
          rw [splitAtBrace_shape hs]
          rfl
        rw [this, ← findPh_shape hf]
        exact hu
      rcases he : ev (String.mk expr) with e | v
      · rw [he] at h; exact absurd h (by simp [bind, Except.bind])
      · rw [he] at h
        simp only [bind, Except.bind] at h
        exact ih (pre ++ (pyStrNull v).data ++ after)
          (hasUntermB_append_left (pre ++ (pyStrNull v).data) hafter) res h

theorem getLast_ne_rbrace_of_unterm {l : List Char}
    (hu : hasUntermB l = true) : l.getLast? ≠ some rbrace := by
  intro hlast
  have hne : l ≠ [] := by
    intro h; rw [h] at hu; simp [hasUntermB] at hu
  have hget : l.getLast hne = rbrace := by
    rw [List.getLast?_eq_getLast l hne] at hlast
    exact Option.some.inj hlast
  have hdec : l.dropLast ++ rbrace :: [] = l := by
    rw [← hget]
    exact List.dropLast_concat_getLast hne
  have : hasUntermB ([] : List Char) = true :=
    unterm_split_at_rb l.dropLast [] (by rw [hdec]; exact hu)
  simp [hasUntermB] at this

theorem exprRenderTemplate_not_ok (fuel : Nat) (s : String)
    (ev : String → Except String Value) (hu : hasUntermB s.data = true) :
    ∀ v, exprRenderTemplate fuel (.str s) ev ≠ .ok v := by
  intro v h
  have hlast := getLast_ne_rbrace_of_unterm hu
  simp only [exprRenderTemplate] at h
  rw [if_neg ?hcond] at h
  case hcond =>
    intro hc
    simp only [Bool.and_eq_true, decide_eq_true_eq] at hc
    exact hlast hc.1.2
  rcases hl : exprRenderLoop ev fuel s.data with e | o
  · rw [hl] at h; exact absurd h (by simp [Except.bind])
  · exact exprRenderLoop_not_ok ev fuel s.data hu o hl

theorem renderTemplate_preserves_unterm (s : String)
    (ev : String → Except String Value) (out : Value)
    (hu : hasUntermB s.data = true)
    (h : renderTemplate (.str s) ev = .ok out) :
    ∃ t : String, out = .str t ∧ hasUntermB t.data = true := by
  simp only [renderTemplate, fullmatch_none_of_unterm hu] at h
  rcases hs : subst ev s.data with e | o
  · rw [hs] at h; exact absurd h (by simp [bind, Except.bind])
  · rw [hs] at h
    simp only [bind, Except.bind, pure, Except.pure, Except.ok.injEq] at h
    refine ⟨String.mk o, h.symm, ?_⟩
    exact substGo_preserves_unterm ev s.data.length s.data o (Nat.le_refl _) hu hs

/-- C9 (counterexample): the claim says rendering a string with an
unterminated placeholder fails with an error in template rendering; but the
PipelineEngine renderer (engine.py render_template, the cited source) happily
succeeds on the unterminated input and hands back the text with the dangling
opener still in place, because the regex sub simply finds no match. -/
theorem C9_counterexample :
    hasUntermB (String.data "$\x7boops") = true ∧
    renderTemplate (.str "$\x7boops") (fun _ => .error "eval") =
      .ok (.str "$\x7boops") :=
  ⟨by decide, rfl⟩

/-- C9: amended.  On a string containing an opening placeholder delimiter
that no closing brace ever follows, the two renderers diverge: the standalone
expression module (expression.py render_template) does fail - its
substitution loop can never return successfully - whereas the PipelineEngine
renderer (engine.py render_template) does not error on that account: any
successful render returns a string that still carries an unterminated opener,
i.e. the text is left in place rather than rejected. -/
theorem C9_unterminated (s : String) (ev : String → Except String Value)
    (hu : hasUntermB s.data = true) :
    (∀ fuel v, exprRenderTemplate fuel (.str s) ev ≠ .ok v) ∧
    (∀ out, renderTemplate (.str s) ev = .ok out →
      ∃ t : String, out = .str t ∧ hasUntermB t.data = true) := by
  constructor
  · intro fuel v
    exact exprRenderTemplate_not_ok fuel s ev hu v
  · intro out h
    exact renderTemplate_preserves_unterm s ev out hu h

/-- C9 witness: the theorem applied to the concrete unterminated input. -/
theorem C9_unterminated_witness :
    exprRenderTemplate 3 (.str "$\x7boops") (fun _ => .ok .null) ≠
      .ok .null ∧
    (∃ t : String, Value.str "$\x7boops" = .str t ∧
      hasUntermB t.data = true) :=
  ⟨(C9_unterminated "$\x7boops" (fun _ => .ok .null) (by decide)).1 3 .null,
   (C9_unterminated "$\x7boops" (fun _ => .ok .null) (by decide)).2
     (.str "$\x7boops") rfl⟩

theorem scanInner_cons (c : Char) (cs : List Char) :
    scanInner (c :: cs) =
      (if c = rbrace then some ([], cs)
       else if c = lbrace then none
       else match scanInner cs with
         | some (inner, tail) => some (c :: inner, tail)
         | none => none) := rfl

theorem scanInner_of_braceFree : ∀ {inner : List Char} (rest : List Char),
    inner.all braceFreeChar = true →
    scanInner (inner ++ rbrace :: rest) = some (inner, rest) := by
  intro inner
  induction inner with
  | nil =>
    intro rest _
    rw [List.nil_append, scanInner_cons, if_pos rfl]
  | cons c cs ih =>
    intro rest hall
    rw [List.all_cons, Bool.and_eq_true] at hall
    have hc := hall.1
    simp only [braceFreeChar, Bool.and_eq_true, decide_eq_true_eq] at hc
    rw [List.cons_append, scanInner_cons, if_neg hc.2, if_neg hc.1,
      ih rest hall.2]

theorem scanInner_append_of_some : ∀ {t i r : List Char},
    scanInner t = some (i, r) → ∀ (ext : List Char),
    scanInner (t ++ ext) = some (i, r ++ ext) := by
  intro t
  induction t with
  | nil =>
    intro i r h ext
    rw [scanInner] at h
    cases h
  | cons c cs ih =>
    intro i r h ext
    rw [scanInner_cons] at h
    rw [List.cons_append, scanInner_cons]
    by_cases hc : c = rbrace
    · rw [if_pos hc] at h
      simp only [Option.some.injEq, Prod.mk.injEq] at h
      rw [if_pos hc, ← h.1, ← h.2]
    · rw [if_neg hc] at h
      rw [if_neg hc]
      by_cases hl : c = lbrace
      · rw [if_pos hl] at h
        cases h
      · rw [if_neg hl] at h
        rw [if_neg hl]
        rcases hs : scanInner cs with - | ⟨i1, r1⟩
        · rw [hs] at h
          simp at h
        · rw [hs] at h
          simp only [Option.some.injEq, Prod.mk.injEq] at h
          rw [ih hs ext, ← h.1, ← h.2]

theorem scanInner_append_of_none : ∀ {t : List Char},
    scanInner t = none → ∀ (u : List Char),
    scanInner (t ++ '$' :: lbrace :: u) = none := by
  intro t
  induction t with
  | nil =>
    intro _ u
    rw [List.nil_append, scanInner_cons, if_neg (by decide), if_neg (by decide),
      show scanInner (lbrace :: u) = none from by
        rw [scanInner_cons, if_neg (by decide), if_pos rfl]]
  | cons c cs ih =>
    intro h u
    rw [scanInner_cons] at h
    rw [List.cons_append, scanInner_cons]
    by_cases hc : c = rbrace
    · rw [if_pos hc] at h
      cases h
    · rw [if_neg hc] at h
      rw [if_neg hc]
      by_cases hl : c = lbrace
      · rw [if_pos hl]
      · rw [if_neg hl] at h
        rw [if_neg hl]
        rcases hs : scanInner cs with - | ⟨i1, r1⟩
        · rw [ih hs u]
        · rw [hs] at h
          simp at h

theorem tryMatch_cons2 (a b : Char) (t : List Char) :
    tryMatch (a :: b :: t) =
      (if a = '$' && b = lbrace then
        match scanInner t with
        | some (inner, tail) => if inner.isEmpty then none else some (inner, tail)
        | none => none
      else none) := rfl

theorem tryMatch_extend_none {c : Char} {x : List Char}
    (h : tryMatch (c :: x) = none) (u : List Char) :
    tryMatch ((c :: x) ++ '$' :: lbrace :: u) = none := by
  rcases x with - | ⟨d, x'⟩
  · rw [List.cons_append, List.nil_append, tryMatch_cons2]
    by_cases hc : (c = '$' && '$' = lbrace) = true
    · rw [Bool.and_eq_true, decide_eq_true_eq, decide_eq_true_eq] at hc
      exact absurd hc.2 (by decide)
    · rw [if_neg hc]
  · rw [tryMatch_cons2] at h
    rw [List.cons_append, List.cons_append, tryMatch_cons2]
    by_cases hc : (c = '$' && d = lbrace) = true
    · rw [if_pos hc] at h
      rw [if_pos hc]
      rcases hs : scanInner x' with - | ⟨i1, r1⟩
      · rw [scanInner_append_of_none hs u]
      · rw [hs] at h
        simp only [] at h
        rcases hi : i1.isEmpty with - | -
        · rw [hi] at h
          simp at h
        · rw [scanInner_append_of_some hs ('$' :: lbrace :: u)]
          simp only []
          rw [hi]
          rfl
    · rw [if_neg hc]

/-- The claim's phrase "surrounding literal text", transcribed: a stretch of
characters in which the placeholder regex matches at no position. -/
def NoPhB : List Char → Bool
  | [] => true
  | c :: cs => (tryMatch (c :: cs)).isNone && NoPhB cs

theorem NoPhB_suffix : ∀ (x y : List Char), NoPhB (x ++ y) = true →
    tryMatch y = none := by
  intro x
  induction x with
  | nil =>
    intro y h
    rcases y with - | ⟨c, cs⟩
    · rfl
    · simp only [List.nil_append, NoPhB, Bool.and_eq_true,
        Option.isNone_iff_eq_none] at h
      exact h.1
  | cons a x' ih =>
    intro y h
    simp only [List.cons_append, NoPhB, Bool.and_eq_true] at h
    exact ih y h.2

theorem substGo_NoPh (ev : String → Except String Value) :
    ∀ (fuel : Nat) (l : List Char), NoPhB l = true →
    substGo ev fuel l = .ok l := by
  intro fuel
  induction fuel with
  | zero => intro l _; cases l <;> rfl
  | succ f ih =>
    intro l h
    rcases l with - | ⟨c, cs⟩
    · rfl
    · simp only [NoPhB, Bool.and_eq_true, Option.isNone_iff_eq_none] at h
      simp only [substGo, h.1, ih cs h.2]
      rfl

theorem NoPhB_fullmatch_none {l : List Char} (h : NoPhB l = true) :
    fullmatchTemplate (trimCh l) = none := by
  rcases hf : fullmatchTemplate (trimCh l) with - | inner
  · rfl
  · exfalso
    have htm : tryMatch (trimCh l) = some (inner, []) := by
      simp only [fullmatchTemplate] at hf
      rcases h2 : tryMatch (trimCh l) with - | ⟨i2, r2⟩
      · rw [h2] at hf; simp at hf
      · rw [h2] at hf
        rcases r2 with - | ⟨x, xs⟩
        · simp at hf; rw [hf]
        · simp at hf
    obtain ⟨hshape, hfree, hne⟩ := tryMatch_shape htm
    obtain ⟨w1, w2, hdec, -, -⟩ := trim_decomp l
    have hsuf : tryMatch (trimCh l ++ w2) = none := by
      apply NoPhB_suffix w1
      rw [← List.append_assoc, ← hdec]
      exact h
    have : tryMatch (trimCh l ++ w2) = some (inner, w2) := by
      rw [hshape]
      simp only [List.cons_append, List.append_assoc, List.cons_append,
        List.nil_append]
      simp only [tryMatch, decide_True, Bool.and_self, if_pos]
      rw [scanInner_of_braceFree w2 hfree]
      simp only [List.isEmpty_eq_true]
      rw [if_neg hne]
    rw [this] at hsuf
    exact absurd hsuf (by simp)

theorem tryMatch_head {ph : List Char} (rest : List Char)
    (hfree : ph.all braceFreeChar = true) (hne : ph ≠ []) :
    tryMatch ('$' :: lbrace :: (ph ++ rbrace :: rest)) = some (ph, rest) := by
  simp only [tryMatch, decide_True, Bool.and_self, if_pos]
  rw [scanInner_of_braceFree rest hfree]
  simp only [List.isEmpty_eq_true]
  rw [if_neg hne]

theorem substGo_cons_eq (ev : String → Except String Value) (f : Nat)
    (c : Char) (cs : List Char) :
    substGo ev (f + 1) (c :: cs) =
      (match tryMatch (c :: cs) with
      | some (inner, rest) => do
        let v ← ev (String.mk (trimCh inner))
        let tail ← substGo ev f rest
        pure ((pyStrNull v).data ++ tail)
      | none => do
        let tail ← substGo ev f cs
        pure (c :: tail)) := rfl

theorem substGo_lit (ev : String → Except String Value) :
    ∀ (lit : List Char), NoPhB lit = true →
    ∀ (u : List Char) (fuel : Nat), lit.length + (u.length + 2) ≤ fuel →
    substGo ev fuel (lit ++ '$' :: lbrace :: u) =
      (substGo ev (u.length + 2) ('$' :: lbrace :: u)).bind
        (fun t => .ok (lit ++ t)) := by
  intro lit
  induction lit with
  | nil =>
    intro _ u fuel hfuel
    rw [List.nil_append]
    rw [substGo_eq_of_le ev fuel (u.length + 2) ('$' :: lbrace :: u)
      (by simp at hfuel ⊢; omega) (by simp)]
    rcases substGo ev (u.length + 2) ('$' :: lbrace :: u) with e | t
    · rfl
    · simp [Except.bind]
  | cons c lit' ih =>
    intro hno u fuel hfuel
    simp only [NoPhB, Bool.and_eq_true, Option.isNone_iff_eq_none] at hno
    rcases fuel with - | f
    · simp at hfuel
    · have hnone : tryMatch (c :: (lit' ++ '$' :: lbrace :: u)) = none := by
        rw [← List.cons_append]
        exact tryMatch_extend_none hno.1 u
      rw [List.cons_append]
      rw [substGo_cons_eq, hnone]
      rw [ih hno.2 u f (by simp at hfuel ⊢; omega)]
      rcases substGo ev (u.length + 2) ('$' :: lbrace :: u) with e | t
      · rfl
      · simp [bind, Except.bind, pure, Except.pure]

theorem subst_occurrence (ev : String → Except String Value)
    (lit ph rest : List Char) (hlit : NoPhB lit = true)
    (hfree : ph.all braceFreeChar = true) (hne : ph ≠ []) :
    subst ev (lit ++ '$' :: lbrace :: (ph ++ rbrace :: rest)) =
      (ev (String.mk (trimCh ph))).bind (fun v =>
        (subst ev rest).bind (fun tail =>
          .ok (lit ++ (pyStrNull v).data ++ tail))) := by
  have hlen : (lit ++ '$' :: lbrace :: (ph ++ rbrace :: rest)).length =
      lit.length + ((ph ++ rbrace :: rest).length + 2) := by
    simp
    try omega
  rw [subst, hlen,
    substGo_lit ev lit hlit (ph ++ rbrace :: rest) _ (Nat.le_refl _)]
  have hstep : substGo ev ((ph ++ rbrace :: rest).length + 2)
      ('$' :: lbrace :: (ph ++ rbrace :: rest)) =
      (ev (String.mk (trimCh ph))).bind (fun v =>
        (subst ev rest).bind (fun tail =>
          .ok ((pyStrNull v).data ++ tail))) := by
    have h2 : (ph ++ rbrace :: rest).length + 2 =
        ((ph ++ rbrace :: rest).length + 1) + 1 := rfl
    rw [h2]
    simp only [substGo, tryMatch_head rest hfree hne]
    rw [substGo_eq_of_le ev ((ph ++ rbrace :: rest).length + 1) rest.length rest
      (by simp; omega) (Nat.le_refl _)]
    rw [show substGo ev rest.length rest = subst ev rest from rfl]
    rcases ev (String.mk (trimCh ph)) with e | v
    · rfl
    · simp only [bind, Except.bind]
      rcases subst ev rest with e | tail
      · rfl
      · rfl
  rw [hstep]
  rcases ev (String.mk (trimCh ph)) with e | v
  · rfl
  · simp only [bind, Except.bind]
    rcases subst ev rest with e | tail
    · rfl
    · simp [bind, Except.bind]

/-- C8: the render contract of PipelineEngine render_template (engine.py
lines 105-117).  (1) Non-string inputs pass through unchanged.  (2) A string
whose entire stripped content is a single placeholder - an opener, a
nonempty brace-free body, a closing brace - returns the native evaluation of
the stripped body, with a null result mapped to the empty string.  (3) A
string with no placeholder occurrence anywhere is returned verbatim.  (4) In
any other string, the leftmost placeholder occurrence is replaced by the
stringified evaluation of its stripped body (null becoming empty), the
literal text before it is preserved verbatim, and the remainder is processed
by the same substitution; together with (3) this replaces every occurrence
and preserves all surrounding literal text. -/
theorem C8_render_contract (ev : String → Except String Value) :
    (∀ v : Value, (∀ t : String, v ≠ .str t) → renderTemplate v ev = .ok v) ∧
    (∀ (s : String) (inner : List Char),
      trimCh s.data = '$' :: lbrace :: (inner ++ [rbrace]) →
      inner.all braceFreeChar = true → inner ≠ [] →
      renderTemplate (.str s) ev =
        (ev (String.mk (trimCh inner))).bind
          (fun r => .ok (match r with | .null => .str "" | r => r))) ∧
    (∀ s : String, NoPhB s.data = true →
      renderTemplate (.str s) ev = .ok (.str s)) ∧
    (∀ (s : String) (lit ph rest : List Char),
      (¬∃ inner, trimCh s.data = '$' :: lbrace :: (inner ++ [rbrace]) ∧
        inner.all braceFreeChar = true ∧ inner ≠ []) →
      s.data = lit ++ '$' :: lbrace :: (ph ++ rbrace :: rest) →
      NoPhB lit = true → ph.all braceFreeChar = true → ph ≠ [] →
      renderTemplate (.str s) ev =
        (ev (String.mk (trimCh ph))).bind (fun v =>
          (subst ev rest).bind (fun tail =>
            .ok (.str (String.mk (lit ++ (pyStrNull v).data ++ tail)))))) := by
  refine ⟨?_, ?_, ?_, ?_⟩
  · intro v hv
    cases v with
    | str t => exact absurd rfl (hv t)
    | null => rfl
    | bool _ => rfl
    | int _ => rfl
    | list _ => rfl
    | map _ => rfl
  · intro s inner hsh hfree hne
    have htm : tryMatch (trimCh s.data) = some (inner, []) := by
      rw [hsh]
      exact tryMatch_head [] hfree hne
    have hfm : fullmatchTemplate (trimCh s.data) = some inner := by
      simp only [fullmatchTemplate, htm]
    simp only [renderTemplate, hfm]
    rcases he : ev (String.mk (trimCh inner)) with e | r <;> rfl
  · intro s hno
    have hfm := NoPhB_fullmatch_none hno
    simp only [renderTemplate, hfm]
    rw [subst, substGo_NoPh ev s.data.length s.data hno]
    rfl
  · intro s lit ph rest hnw hdec hlit hfree hne
    have hfm : fullmatchTemplate (trimCh s.data) = none := by
      rcases hf : fullmatchTemplate (trimCh s.data) with - | i
      · rfl
      · exfalso
        have htm : tryMatch (trimCh s.data) = some (i, []) := by
          simp only [fullmatchTemplate] at hf
          rcases h2 : tryMatch (trimCh s.data) with - | ⟨i2, r2⟩
          · rw [h2] at hf; simp at hf
          · rw [h2] at hf
            rcases r2 with - | ⟨x, xs⟩
            · simp at hf; rw [hf]
            · simp at hf
        obtain ⟨hshape, hfree2, hne2⟩ := tryMatch_shape htm
        exact hnw ⟨i, hshape, hfree2, hne2⟩
    simp only [renderTemplate, hfm]
    rw [hdec, subst_occurrence ev lit ph rest hlit hfree hne]
    rcases he : ev (String.mk (trimCh ph)) with e | v
    · rfl
    · simp only [Except.bind]
      rcases hs : subst ev rest with e | tail
      · rfl
      · rfl

/-- C8 witness: the contract applied to one value of each kind - a
non-string, a whole-placeholder string, a placeholder-free string, and a
string embedding a placeholder in literal text. -/
theorem C8_render_contract_witness :
    renderTemplate (.int 3) (fun _ => .ok (.int 7)) = .ok (.int 3) ∧
    renderTemplate (.str "$\x7bx\x7d") (fun _ => .ok (.int 7)) =
      .ok (.int 7) ∧
    renderTemplate (.str "a b") (fun _ => .ok (.int 7)) = .ok (.str "a b") ∧
    renderTemplate (.str "a$\x7bx\x7db") (fun _ => .ok (.int 7)) =
      .ok (.str "a7b") := by
  refine ⟨?_, ?_, ?_, ?_⟩
  · exact (C8_render_contract (fun _ => .ok (.int 7))).1 (.int 3)
      (fun t h => Value.noConfusion h)
  · exact ((C8_render_contract (fun _ => .ok (.int 7))).2.1 "$\x7bx\x7d"
      ['x'] rfl (by decide) (by decide)).trans rfl
  · exact (C8_render_contract (fun _ => .ok (.int 7))).2.2.1 "a b" (by decide)
  · refine ((C8_render_contract (fun _ => .ok (.int 7))).2.2.2 "a$\x7bx\x7db"
      ['a'] ['x'] ['b'] ?_ rfl (by decide) (by decide) (by decide)).trans rfl
    rintro ⟨i, hsh, -, -⟩
    rw [show trimCh (String.data "a$\x7bx\x7db") =
      'a' :: '$' :: lbrace :: 'x' :: rbrace :: 'b' :: [] from rfl] at hsh
    injection hsh with h1 h2
    exact absurd h1 (by decide)
